import Mathlib

/-!
# Stream indexer (packages/backend/utils/streams.js)

Shallow embedding of `getStreamEvents` and `updateStreamsForBuilders`.

* Block numbers, counters and wei amounts are natural numbers.
* A JavaScript value that may be `null`/`undefined` is an `Option`.
* The chain node (ethers provider and the stream contract bound to it) is a
  record of read-only request functions that may fail.
* The database module (`../services/db/db`) is a record of state-passing
  operations over an arbitrary state type.
* Every awaited external call is recorded, in issue order, in a call trace; a
  computation yields its result (or the rejection), the database state and
  the trace.  Concurrent tasks of a `Promise.all` are laid out in list order.
-/

namespace Streams

/-- Rejection reason of a promise; `wrapped` is `new Error(e)`. -/
inductive Err where
  | rejected (reason : String)
  | wrapped (inner : Err)
  deriving DecidableEq, Repr

/-- Stream row as handed out by `db.findUpdatableStreams`. -/
structure Stream where
  streamAddress : String
  builderAddress : String
  cap : Option String
  frequency : Option Nat
  lastIndexedBlock : Option Nat
  lastContract : Option Nat
  deriving DecidableEq, Repr

/-- The two event filters of the stream contract. -/
inductive EventKind where
  | Withdraw
  | Deposit
  deriving DecidableEq, Repr

/-- Log filter: `streamContract.filters.X()` with `fromBlock`/`toBlock` set. -/
structure Filter where
  address : String
  event : EventKind
  fromBlock : Nat
  toBlock : Nat
  deriving DecidableEq, Repr

/-- Raw log returned by `provider.getLogs`. -/
structure Log where
  blockNumber : Nat
  transactionHash : String
  data : String
  deriving DecidableEq, Repr

/-- Decoded arguments of a log (`data.args`); `account` is `to` for a
Withdraw and `from` for a Deposit. -/
structure LogArgs where
  account : String
  amount : Nat
  reason : String
  deriving DecidableEq, Repr

/-- Block header as far as the code reads it. -/
structure Block where
  timestamp : Nat
  deriving DecidableEq, Repr

/-- Payload of an event of the snapshot. -/
structure Payload where
  userAddress : String
  builderAddress : Option String
  amount : String
  reason : String
  block : Nat
  tx : String
  streamAddress : String
  deriving DecidableEq, Repr

/-- Event of the snapshot: `type` is "stream.withdraw" or "stream.deposit". -/
structure Event where
  type : String
  timestamp : Nat
  payload : Payload
  deriving DecidableEq, Repr

/-- Value returned by `getStreamEvents`. -/
structure Snapshot where
  streamAddress : String
  lastContract : Option Nat
  cap : Option String
  frequency : Option Nat
  lastBlock : Nat
  balance : String
  events : List Event
  deriving DecidableEq, Repr

/-- External calls, as they appear in the call trace. -/
inductive Call where
  | getBlockNumber
  | contractCap (address : String)
  | contractFrequency (address : String)
  | contractLast (address : String)
  | getLogs (filter : Filter)
  | getBlock (blockNumber : Nat)
  | getBalance (address : String)
  | findUpdatableStreams (limit : Nat)
  | updateStreamData (stream : Stream) (streamUpdate : Snapshot)
  | setConfigData (key : String) (lastIndexedBlock : Nat)
  | consoleLog (message : String) (argument : String)
  | consoleError (message : String) (reason : Err)
  deriving DecidableEq, Repr

/-- Unsigned 256-bit integer, as the ABI decoder returns a contract value. -/
structure Uint256 where
  val : Nat
  isLt : val < 2 ^ 256

/-- Chain node seen through ethers: the provider requests and the reads of the
stream contract at an address.  `parseLog` is `streamContract.interface.parseLog`. -/
structure Provider where
  getBlockNumber : Except Err Nat
  getLogs : Filter → Except Err (List Log)
  getBlock : Nat → Except Err Block
  getBalance : String → Except Err Nat
  contractCap : String → Except Err Uint256
  contractFrequency : String → Except Err Uint256
  contractLast : String → Except Err Uint256
  parseLog : Log → Except Err LogArgs

/-- Database module `db`, over a state type `σ`. -/
structure Db (σ : Type) where
  findUpdatableStreams : Nat → σ → Except Err (List Stream) × σ
  updateStreamData : Stream → Snapshot → σ → Except Err Unit × σ
  setConfigData : String → Nat → σ → Except Err Unit × σ

/-- What a computation leaves behind. -/
structure Outcome (σ α : Type) where
  result : Except Err α
  db : σ
  trace : List Call

/-- Asynchronous computation over database state `σ`. -/
def Eff (σ α : Type) : Type := σ → Outcome σ α

/-- Resolved promise. -/
def Eff.pure {σ α : Type} (a : α) : Eff σ α := fun s => ⟨.ok a, s, []⟩

/-- Sequencing with `await`: a rejection skips the continuation. -/
def Eff.bind {σ α β : Type} (m : Eff σ α) (f : α → Eff σ β) : Eff σ β := fun s =>
  match m s with
  | ⟨.error e, s1, t1⟩ => ⟨.error e, s1, t1⟩
  | ⟨.ok a, s1, t1⟩ =>
    match f a s1 with
    | ⟨r, s2, t2⟩ => ⟨r, s2, t1 ++ t2⟩

instance {σ : Type} : Monad (Eff σ) where
  pure := Eff.pure
  bind := Eff.bind

/-- Rejected promise (`throw`). -/
def Eff.throw {σ α : Type} (e : Err) : Eff σ α := fun s => ⟨.error e, s, []⟩

/-- The promise chain `.catch(handler)`. -/
def Eff.tryCatch {σ α : Type} (m : Eff σ α) (handler : Err → Eff σ α) : Eff σ α := fun s =>
  match m s with
  | ⟨.ok a, s1, t1⟩ => ⟨.ok a, s1, t1⟩
  | ⟨.error e, s1, t1⟩ =>
    match handler e s1 with
    | ⟨r, s2, t2⟩ => ⟨r, s2, t1 ++ t2⟩

/-- Read-only external call: recorded, state untouched. -/
def call {σ α : Type} (c : Call) (r : Except Err α) : Eff σ α := fun s => ⟨r, s, [c]⟩

/-- Database call: recorded, state threaded. -/
def dbCall {σ α : Type} (c : Call) (op : σ → Except Err α × σ) : Eff σ α := fun s =>
  ⟨(op s).1, (op s).2, [c]⟩

/-- Synchronous step that may throw inside an async function. -/
def attempt {σ α : Type} (r : Except Err α) : Eff σ α := fun s => ⟨r, s, []⟩

/-- First rejection in list order, else all the values.  (A real
`Promise.all` rejects with the rejection that comes first in time; the order of
the list stands for one such schedule.) -/
def joinResults {α : Type} : Except Err α → Except Err (List α) → Except Err (List α)
  | .error e, _ => .error e
  | .ok _, .error e => .error e
  | .ok a, .ok as => .ok (a :: as)

/-- `Promise.all`: every task is started, also after a rejection.  The calls
of the tasks are recorded task after task, one of the interleavings of the
concurrent tasks; within a task the order is the order of its awaits. -/
def promiseAll {σ α : Type} : List (Eff σ α) → Eff σ (List α)
  | [] => Eff.pure []
  | task :: tasks => fun s =>
    match task s with
    | ⟨r, s1, t1⟩ =>
      match promiseAll tasks s1 with
      | ⟨rs, s2, t2⟩ => ⟨joinResults r rs, s2, t1 ++ t2⟩

/-- JavaScript truthiness of a string that may be undefined. -/
def truthyStr : Option String → Bool
  | some s => s != ""
  | none => false

/-- JavaScript truthiness of a number that may be null/undefined. -/
def truthyNum : Option Nat → Bool
  | some n => n != 0
  | none => false

/-- Binary exponent of the double nearest to `n`: the least `e` at or above
the given one with `n < 2 ^ (53 + e)`, searched with the given fuel. -/
def doubleExponent (n : Nat) : Nat → Nat → Nat
  | 0, e => e
  | fuel + 1, e => if n < 2 ^ (53 + e) then e else doubleExponent n fuel (e + 1)

/-- JavaScript `Number(ethers.utils.formatUnits(x, 0))` for an unsigned 256-bit
`x`: the decimal string of `x` read back as an IEEE double, that is `x` rounded
to 53 significant bits, ties to even (the correctly rounded result, which
Node.js gives).  It is `x` itself below `2 ^ 53`. -/
def unitsToNumber (x : Uint256) : Nat :=
  let e := doubleExponent x.val 204 0
  let q := x.val / 2 ^ e
  let r := x.val % 2 ^ e
  if 2 * r > 2 ^ e ∨ (2 * r = 2 ^ e ∧ q % 2 = 1) then (q + 1) * 2 ^ e else q * 2 ^ e

/-- Decimal digits of `n`, least significant first, exactly `k` of them. -/
def lowDigits : Nat → Nat → List Nat
  | 0, _ => []
  | k + 1, n => (n % 10) :: lowDigits k (n / 10)

/-- The function `ethers.utils.formatEther` on a non-negative amount: whole
part, a dot, and the 18 fraction digits without trailing zeros (at least one). -/
def formatEther (wei : Nat) : String :=
  let fraction := ((lowDigits 18 (wei % 10 ^ 18)).dropWhile (· == 0)).reverse
  let fraction := if fraction.isEmpty then [0] else fraction
  toString (wei / 10 ^ 18) ++ "." ++ String.mk (fraction.map Nat.digitChar)

/-- Body of the Withdraw callback after `parseLog` and `getBlock`. -/
def withdrawEvent (streamAddress : String) (log : Log) (data : LogArgs) (block : Block) : Event :=
  { type := "stream.withdraw"
    timestamp := block.timestamp * 1000
    payload :=
      { userAddress := data.account
        builderAddress := none
        amount := formatEther data.amount
        reason := data.reason
        block := log.blockNumber
        tx := log.transactionHash
        streamAddress := streamAddress } }

/-- Body of the Deposit callback after `parseLog` and `getBlock`. -/
def depositEvent (stream : Stream) (log : Log) (data : LogArgs) (block : Block) : Event :=
  { type := "stream.deposit"
    timestamp := block.timestamp * 1000
    payload :=
      { userAddress := data.account
        builderAddress := some stream.builderAddress
        amount := formatEther data.amount
        reason := data.reason
        block := log.blockNumber
        tx := log.transactionHash
        streamAddress := stream.streamAddress } }

/-- The function `getStreamEvents(provider, stream, fromBlock, toBlock)`. -/
def getStreamEvents {σ : Type} (provider : Provider) (stream : Stream)
    (fromBlock toBlock : Nat) : Eff σ Snapshot := do
  let streamAddress := stream.streamAddress
  let (cap, frequency) ←
    (if !truthyStr stream.cap || !truthyNum stream.frequency then do
      let cap ← call (.contractCap streamAddress) (provider.contractCap streamAddress)
      let frequency ← call (.contractFrequency streamAddress)
        (provider.contractFrequency streamAddress)
      pure (some (formatEther cap.val), some (unitsToNumber frequency))
    else
      pure (stream.cap, stream.frequency) : Eff σ (Option String × Option Nat))
  let withdrawFilter : Filter := ⟨streamAddress, .Withdraw, fromBlock, toBlock⟩
  let withdrawLogs ← call (.getLogs withdrawFilter) (provider.getLogs withdrawFilter)
  let depositFilter : Filter := ⟨streamAddress, .Deposit, fromBlock, toBlock⟩
  let depositLogs ← call (.getLogs depositFilter) (provider.getLogs depositFilter)
  let withdrawEvents ← promiseAll (withdrawLogs.map fun log => do
    let data ← attempt (provider.parseLog log)
    let block ← call (.getBlock log.blockNumber) (provider.getBlock log.blockNumber)
    pure (withdrawEvent streamAddress log data block))
  let lastContract ←
    (if withdrawEvents.length != 0 then do
      let last ← call (.contractLast streamAddress) (provider.contractLast streamAddress)
      pure (some (unitsToNumber last))
    else
      pure stream.lastContract : Eff σ (Option Nat))
  let depositEvents ← promiseAll (depositLogs.map fun log => do
    let data ← attempt (provider.parseLog log)
    let block ← call (.getBlock log.blockNumber) (provider.getBlock log.blockNumber)
    pure (depositEvent stream log data block))
  let balance ← call (.getBalance streamAddress) (provider.getBalance streamAddress)
  pure
    { streamAddress := streamAddress
      lastContract := lastContract
      cap := cap
      frequency := frequency
      lastBlock := toBlock
      balance := formatEther balance
      events := withdrawEvents ++ depositEvents }

/-- JavaScript `Number(max)` for a count that may be null (`Number(null)` is 0). -/
def jsNumber : Option Nat → Nat
  | some n => n
  | none => 0

/-- JavaScript `a || b` on numbers. -/
def jsOr (a b : Nat) : Nat := if a != 0 then a else b

/-- Body of the second `map` callback: decides whether a snapshot is written;
the value is this task's contribution to `updated`. -/
def persistTask {σ : Type} (db : Db σ) (streamUpdate : Snapshot) (stream : Stream) : Eff σ Nat :=
  if streamUpdate.events.length != 0 then do
    call (.consoleLog "Updating stream data for" stream.builderAddress) (.ok ())
    dbCall (.updateStreamData stream streamUpdate) (db.updateStreamData stream streamUpdate)
    pure 1
  else if !truthyNum stream.lastIndexedBlock then do
    call (.consoleLog "Updating NEW stream data for" stream.builderAddress) (.ok ())
    dbCall (.updateStreamData stream streamUpdate) (db.updateStreamData stream streamUpdate)
    pure 1
  else
    pure 0

/-- Body of the first `map` callback: the sync of one stream. -/
def syncTask {σ : Type} (provider : Provider) (currentBlock : Nat) (stream : Stream) :
    Eff σ (Snapshot × Stream) := do
  let fromBlock := stream.lastIndexedBlock.getD 0
  let streamUpdate ← getStreamEvents provider stream (fromBlock + 1) currentBlock
  pure (streamUpdate, stream)

/-- The function `updateStreamsForBuilders(max = null)`; `none` is an omitted
or null `max`.  `updated` is the sum of what the write tasks added to it. -/
def updateStreamsForBuilders {σ : Type} (provider : Provider) (db : Db σ)
    (max : Option Nat) : Eff σ Nat := do
  let maxItems := jsOr (jsNumber max) 100
  let currentBlock ← call .getBlockNumber provider.getBlockNumber
  let streams ← dbCall (.findUpdatableStreams maxItems) (db.findUpdatableStreams maxItems)
  let updates := streams.map (syncTask provider currentBlock)
  Eff.tryCatch
    (do
      let streamsResult ← promiseAll updates
      let counts ← promiseAll (streamsResult.map fun r => persistTask db r.1 r.2)
      let updated := counts.sum
      call (.consoleLog "Updating stream lastIndexedBlock" (toString currentBlock)) (.ok ())
      dbCall (.setConfigData "streams" currentBlock) (db.setConfigData "streams" currentBlock)
      pure updated)
    (fun e => do
      call (.consoleError "Error found. Not updating lastIndexedBlock" e) (.ok ())
      Eff.throw (Err.wrapped e))

/-- Calls that only read from the chain node. -/
def Call.isRead : Call → Bool
  | .contractCap _ => true
  | .contractFrequency _ => true
  | .contractLast _ => true
  | .getLogs _ => true
  | .getBlock _ => true
  | .getBalance _ => true
  | _ => false

/-- A computation that leaves the database alone, does not look at it, and
issues only chain reads. -/
def ReadOnly {σ α : Type} (m : Eff σ α) : Prop :=
  ∀ s s2, (m s).db = s ∧ (m s).result = (m s2).result ∧ (m s).trace = (m s2).trace ∧
    ∀ c ∈ (m s).trace, c.isRead = true

/-- The node answers a log query only with logs of the queried block range. -/
def Provider.InRange (provider : Provider) : Prop :=
  ∀ f logs, provider.getLogs f = .ok logs →
    ∀ l ∈ logs, f.fromBlock ≤ l.blockNumber ∧ l.blockNumber ≤ f.toBlock

/-- Event `e` is what a map callback with body `mk` resolves to on `log`. -/
def Decoded (provider : Provider) (mk : Log → LogArgs → Block → Event) (log : Log) (e : Event) :
    Prop :=
  ∃ data block, provider.parseLog log = .ok data ∧
    provider.getBlock log.blockNumber = .ok block ∧ e = mk log data block

/-- Calls that are log queries. -/
def Call.isGetLogs : Call → Bool
  | .getLogs _ => true
  | _ => false

/-- A node over a fixed chain of logs, served by address, event and block
range; every request for an address listed in `down` is rejected. -/
def chainProvider (height : Nat) (chain : List (String × EventKind × Log))
    (down : List String) : Provider :=
  { getBlockNumber := .ok height
    getLogs := fun f =>
      if f.address ∈ down then .error (.rejected "RpcUnavailable")
      else .ok ((chain.filter fun entry =>
        entry.1 == f.address && entry.2.1 == f.event &&
          decide (f.fromBlock ≤ entry.2.2.blockNumber) &&
          decide (entry.2.2.blockNumber ≤ f.toBlock)).map fun entry => entry.2.2)
    getBlock := fun n => .ok ⟨n * 12⟩
    getBalance := fun _ => .ok 1500000000000000000
    contractCap := fun _ => .ok ⟨500000000000000000, by decide⟩
    contractFrequency := fun _ => .ok ⟨2592000, by decide⟩
    contractLast := fun _ => .ok ⟨77, by decide⟩
    parseLog := fun log => .ok ⟨"0xA", 1000000000000000000, log.data⟩ }

/-- Sample chain: stream 0xS1 has a deposit at 110, a withdraw at 120 and a
deposit at 130; stream 0xS2 has a deposit at 125. -/
def sampleChain : List (String × EventKind × Log) :=
  [("0xS1", .Deposit, ⟨110, "0xt1", "grant"⟩),
   ("0xS1", .Withdraw, ⟨120, "0xt2", "payout"⟩),
   ("0xS2", .Deposit, ⟨125, "0xt3", "grant"⟩),
   ("0xS1", .Deposit, ⟨130, "0xt4", "topup"⟩)]

/-- Sample stream, synced up to block 100, cap and frequency cached. -/
def streamOne : Stream := ⟨"0xS1", "0xB1", some "0.5", some 2592000, some 100, some 5⟩

/-- Sample stream, synced up to block 100, nothing cached. -/
def streamTwo : Stream := ⟨"0xS2", "0xB2", none, none, some 100, none⟩

/-- Sample stream that was never synced and has no events. -/
def streamNew : Stream := ⟨"0xS3", "0xB3", none, none, none, none⟩

/-- Sample stream synced up to block 150 with no later events. -/
def streamQuiet : Stream := ⟨"0xS4", "0xB4", some "0.5", some 2592000, some 150, some 5⟩

/-- Sample stream whose last indexed block is block 0. -/
def streamZero : Stream := ⟨"0xS5", "0xB5", some "0.5", some 2592000, some 0, some 5⟩

/-- The promise chain of `updateStreamsForBuilders` before `.catch`: the
concurrent syncs, the concurrent writes and the watermark commit, once the
height and the streams are known. -/
def batchBody {σ : Type} (provider : Provider) (db : Db σ) (currentBlock : Nat)
    (streams : List Stream) : Eff σ Nat := do
  let streamsResult ← promiseAll (streams.map (syncTask provider currentBlock))
  let counts ← promiseAll (streamsResult.map fun r => persistTask db r.1 r.2)
  let updated := counts.sum
  call (.consoleLog "Updating stream lastIndexedBlock" (toString currentBlock)) (.ok ())
  dbCall (.setConfigData "streams" currentBlock) (db.setConfigData "streams" currentBlock)
  pure updated


/-- Calls a write task issues for one stream: the log line and the write when
the snapshot has events or the stream has no (truthy) last indexed block. -/
def persistTrace (streamUpdate : Snapshot) (stream : Stream) : List Call :=
  if streamUpdate.events.length != 0 then
    [.consoleLog "Updating stream data for" stream.builderAddress,
      .updateStreamData stream streamUpdate]
  else if !truthyNum stream.lastIndexedBlock then
    [.consoleLog "Updating NEW stream data for" stream.builderAddress,
      .updateStreamData stream streamUpdate]
  else
    []

/-- Calls of all the write tasks, in issue order. -/
def persistTraces : List (Snapshot × Stream) → List Call
  | [] => []
  | r :: rs => persistTrace r.1 r.2 ++ persistTraces rs

/-- Calls that write a stream snapshot. -/
def Call.isUpdateStreamData : Call → Bool
  | .updateStreamData _ _ => true
  | _ => false

/-- Every call a computation issues, from any state, satisfies `P`. -/
def TraceIn {σ α : Type} (P : Call → Prop) (m : Eff σ α) : Prop :=
  ∀ s, ∀ c ∈ (m s).trace, P c

/-- Modelled from the spec: the state kept by the Persistence Gateway (the
module `services/db/db` is not among the sources): the stream rows and the
`streams` watermark. -/
structure Store where
  rows : List Stream
  watermark : Option Nat
  deriving DecidableEq, Repr

/-- Modelled from the spec: what `updateStreamData` does to a row.  The row of
the written stream (same `streamAddress`) takes the snapshot's last block as
its `lastIndexedBlock`, and the snapshot's cap, frequency and `lastContract`. -/
def storeSnapshot (stream : Stream) (streamUpdate : Snapshot) (row : Stream) : Stream :=
  if row.streamAddress = stream.streamAddress then
    { row with
      lastIndexedBlock := some streamUpdate.lastBlock
      cap := streamUpdate.cap
      frequency := streamUpdate.frequency
      lastContract := streamUpdate.lastContract }
  else row

/-- Modelled from the spec: the Persistence Gateway over `Store`.
`findUpdatableStreams(limit)` hands out up to `limit` rows (the first ones),
`updateStreamData` stores the snapshot on the stream's row and
`setConfigData("streams", v)` sets the watermark. -/
def memDb : Db Store :=
  { findUpdatableStreams := fun limit st => (.ok (st.rows.take limit), st)
    updateStreamData := fun stream streamUpdate st =>
      (.ok (), { st with rows := st.rows.map (storeSnapshot stream streamUpdate) })
    setConfigData := fun key value st =>
      (.ok (), if key = "streams" then { st with watermark := some value } else st) }

/-- Node whose `getBlockNumber` request is rejected. -/
def unreachableProvider : Provider :=
  { chainProvider 150 sampleChain [] with getBlockNumber := .error (.rejected "RpcUnavailable") }

/-- Node whose withdraw counter is above 2 ^ 53. -/
def bigCounterProvider : Provider :=
  { chainProvider 150 sampleChain [] with
    contractLast := fun _ => .ok ⟨9007199254740993, by decide⟩ }

/-- Node that reports height 100 and serves a log query whose upper bound is
below its lower bound as open-ended: stream 0xS4 has a deposit at block 155. -/
def staleProvider : Provider :=
  { chainProvider 100 [] [] with
    getLogs := fun f =>
      .ok (([("0xS4", EventKind.Deposit, (⟨155, "0xt9", "late"⟩ : Log))].filter fun entry =>
        entry.1 == f.address && entry.2.1 == f.event &&
          decide (f.fromBlock ≤ entry.2.2.blockNumber) &&
          (decide (f.toBlock < f.fromBlock) ||
            decide (entry.2.2.blockNumber ≤ f.toBlock))).map fun entry => entry.2.2) }

/-- Sample stream whose log queries the sample node rejects. -/
def streamDown : Stream := ⟨"0xS6", "0xB6", some "0.5", some 2592000, some 100, some 5⟩

/-- Whether the write task of a sync result writes: the snapshot has events or
the stream's `lastIndexedBlock` is falsy. -/
def written (r : Snapshot × Stream) : Bool :=
  r.1.events.length != 0 || !truthyNum r.2.lastIndexedBlock

/-- Modelled from the spec: a row after the writes of a batch, applied in
issue order. -/
def applyWrites : List (Snapshot × Stream) → Stream → Stream
  | [], row => row
  | r :: rs, row => applyWrites rs (if written r then storeSnapshot r.2 r.1 row else row)

/-! ## The effect layer -/

theorem pure_apply {σ α : Type} (a : α) (s : σ) :
    (pure a : Eff σ α) s = ⟨.ok a, s, []⟩ := rfl

theorem call_apply {σ α : Type} (c : Call) (r : Except Err α) (s : σ) :
    (call c r : Eff σ α) s = ⟨r, s, [c]⟩ := rfl

theorem attempt_apply {σ α : Type} (r : Except Err α) (s : σ) :
    (attempt r : Eff σ α) s = ⟨r, s, []⟩ := rfl

theorem dbCall_apply {σ α : Type} (c : Call) (op : σ → Except Err α × σ) (s : σ) :
    (dbCall c op : Eff σ α) s = ⟨(op s).1, (op s).2, [c]⟩ := rfl

theorem bind_of_ok {σ α β : Type} {m : Eff σ α} {f : α → Eff σ β} {s s1 : σ} {a : α}
    {t1 : List Call} (h : m s = ⟨.ok a, s1, t1⟩) :
    (m >>= f) s = ⟨(f a s1).result, (f a s1).db, t1 ++ (f a s1).trace⟩ := by
  show Eff.bind m f s = _
  unfold Eff.bind
  rw [h]

theorem bind_of_error {σ α β : Type} {m : Eff σ α} {f : α → Eff σ β} {s s1 : σ} {e : Err}
    {t1 : List Call} (h : m s = ⟨.error e, s1, t1⟩) :
    (m >>= f) s = ⟨.error e, s1, t1⟩ := by
  show Eff.bind m f s = _
  unfold Eff.bind
  rw [h]

theorem outcome_eta {σ α : Type} (o : Outcome σ α) : o = ⟨o.result, o.db, o.trace⟩ := rfl

theorem outcome_cases {σ α : Type} (o : Outcome σ α) :
    (∃ a, o = ⟨.ok a, o.db, o.trace⟩) ∨ (∃ e, o = ⟨.error e, o.db, o.trace⟩) := by
  rcases o with ⟨r, s, t⟩
  cases r with
  | ok a => exact Or.inl ⟨a, rfl⟩
  | error e => exact Or.inr ⟨e, rfl⟩

/-- Inversion of a successful `await` sequence. -/
theorem bind_ok_iff {σ α β : Type} (m : Eff σ α) (f : α → Eff σ β) (s s2 : σ) (b : β)
    (t : List Call) :
    (m >>= f) s = ⟨.ok b, s2, t⟩ ↔
      ∃ a s1 t1 t2, m s = ⟨.ok a, s1, t1⟩ ∧ f a s1 = ⟨.ok b, s2, t2⟩ ∧ t = t1 ++ t2 := by
  constructor
  · intro h
    rcases outcome_cases (m s) with ⟨a, ha⟩ | ⟨e, he⟩
    · rw [bind_of_ok ha] at h
      injection h with h1 h2 h3
      refine ⟨a, _, _, _, ha, ?_, h3.symm⟩
      rw [← h1, ← h2]
    · rw [bind_of_error he] at h
      injection h with h1 h2 h3
      cases h1
  · rintro ⟨a, s1, t1, t2, h1, h2, rfl⟩
    rw [bind_of_ok h1, h2]

/-- Inversion of a rejected `await` sequence. -/
theorem bind_error_iff {σ α β : Type} (m : Eff σ α) (f : α → Eff σ β) (s s2 : σ) (e : Err)
    (t : List Call) :
    (m >>= f) s = ⟨.error e, s2, t⟩ ↔
      m s = ⟨.error e, s2, t⟩ ∨
      ∃ a s1 t1 t2, m s = ⟨.ok a, s1, t1⟩ ∧ f a s1 = ⟨.error e, s2, t2⟩ ∧ t = t1 ++ t2 := by
  constructor
  · intro h
    rcases outcome_cases (m s) with ⟨a, ha⟩ | ⟨e1, he⟩
    · rw [bind_of_ok ha] at h
      injection h with h1 h2 h3
      refine Or.inr ⟨a, _, _, _, ha, ?_, h3.symm⟩
      rw [← h1, ← h2]
    · rw [bind_of_error he] at h
      injection h with h1 h2 h3
      injection h1 with h1
      exact Or.inl (by rw [he, h1, h2, h3])
  · rintro (h | ⟨a, s1, t1, t2, h1, h2, rfl⟩)
    · rw [bind_of_error h]
    · rw [bind_of_ok h1, h2]

theorem readOnly_pure {σ α : Type} (a : α) : ReadOnly (pure a : Eff σ α) := by
  intro s s2; exact ⟨rfl, rfl, rfl, by intro c hc; cases hc⟩

theorem readOnly_attempt {σ α : Type} (r : Except Err α) : ReadOnly (attempt r : Eff σ α) := by
  intro s s2; exact ⟨rfl, rfl, rfl, by intro c hc; cases hc⟩

theorem readOnly_call {σ α : Type} (c : Call) (r : Except Err α) (hc : c.isRead = true) :
    ReadOnly (call c r : Eff σ α) := by
  intro s s2
  refine ⟨rfl, rfl, rfl, ?_⟩
  intro c2 h2
  rw [call_apply] at h2
  rw [List.mem_singleton] at h2
  rw [h2]; exact hc

theorem readOnly_bind {σ α β : Type} {m : Eff σ α} {f : α → Eff σ β}
    (hm : ReadOnly m) (hf : ∀ a, ReadOnly (f a)) : ReadOnly (m >>= f) := by
  intro s s2
  obtain ⟨h1, h2, h3, h4⟩ := hm s s2
  obtain ⟨h1b, -, -, -⟩ := hm s2 s
  rcases outcome_cases (m s) with ⟨a, ha⟩ | ⟨e, he⟩
  · have ha2 : m s2 = ⟨.ok a, s2, (m s).trace⟩ := by
      have := congrArg Outcome.result ha
      rcases hq : m s2 with ⟨r, d, t⟩
      rw [hq] at h2 h3 h1b
      simp only at h2 h3 h1b this
      rw [← h2, this, h1b, h3]
    rw [h1] at ha
    rw [bind_of_ok ha, bind_of_ok ha2]
    obtain ⟨g1, g2, g3, g4⟩ := hf a s s2
    refine ⟨g1, g2, by simp only [g3], ?_⟩
    intro c hc
    rcases List.mem_append.mp hc with hc | hc
    · exact h4 c hc
    · exact g4 c hc
  · have he2 : m s2 = ⟨.error e, s2, (m s).trace⟩ := by
      have := congrArg Outcome.result he
      rcases hq : m s2 with ⟨r, d, t⟩
      rw [hq] at h2 h3 h1b
      simp only at h2 h3 h1b this
      rw [← h2, this, h1b, h3]
    rw [h1] at he
    rw [bind_of_error he, bind_of_error he2]
    exact ⟨rfl, rfl, rfl, h4⟩

theorem promiseAll_cons {σ α : Type} (task : Eff σ α) (tasks : List (Eff σ α)) (s : σ) :
    promiseAll (task :: tasks) s =
      ⟨joinResults (task s).result (promiseAll tasks (task s).db).result,
        (promiseAll tasks (task s).db).db,
        (task s).trace ++ (promiseAll tasks (task s).db).trace⟩ := rfl

theorem promiseAll_nil {σ α : Type} (s : σ) :
    promiseAll ([] : List (Eff σ α)) s = ⟨.ok [], s, []⟩ := rfl

theorem readOnly_promiseAll {σ α : Type} (tasks : List (Eff σ α))
    (h : ∀ t ∈ tasks, ReadOnly t) : ReadOnly (promiseAll tasks) := by
  induction tasks with
  | nil => intro s s2; exact ⟨rfl, rfl, rfl, by intro c hc; cases hc⟩
  | cons t ts ih =>
    intro s s2
    obtain ⟨h1, h2, h3, h4⟩ := h t (List.mem_cons_self _ _) s s2
    obtain ⟨h1b, -, -, -⟩ := h t (List.mem_cons_self _ _) s2 s
    have ih2 := ih (fun x hx => h x (List.mem_cons_of_mem _ hx))
    obtain ⟨g1, g2, g3, g4⟩ := ih2 s s2
    rw [promiseAll_cons, promiseAll_cons, h1, h1b]
    refine ⟨g1, by simp only [h2, g2], by simp only [h3, g3], ?_⟩
    intro c hc
    rcases List.mem_append.mp hc with hc | hc
    · exact h4 c hc
    · exact g4 c hc

theorem joinResults_ok_iff {α : Type} (r : Except Err α) (rs : Except Err (List α))
    (l : List α) :
    joinResults r rs = .ok l ↔ ∃ a as, r = .ok a ∧ rs = .ok as ∧ l = a :: as := by
  cases r with
  | error e => simp [joinResults]
  | ok a =>
    cases rs with
    | error e => simp [joinResults]
    | ok as =>
      simp only [joinResults, Except.ok.injEq]
      constructor
      · intro h; exact ⟨a, as, rfl, rfl, h.symm⟩
      · rintro ⟨a2, as2, rfl, rfl, rfl⟩; rfl

/-- A `Promise.all` resolves exactly when every task resolves. -/
theorem promiseAll_cons_ok_iff {σ α : Type} (task : Eff σ α) (tasks : List (Eff σ α))
    (s s2 : σ) (l : List α) (t : List Call) :
    promiseAll (task :: tasks) s = ⟨.ok l, s2, t⟩ ↔
      ∃ a as s1 t1 t2, task s = ⟨.ok a, s1, t1⟩ ∧ promiseAll tasks s1 = ⟨.ok as, s2, t2⟩ ∧
        l = a :: as ∧ t = t1 ++ t2 := by
  rw [promiseAll_cons]
  constructor
  · intro h
    injection h with h1 h2 h3
    obtain ⟨a, as, ha, has, hl⟩ := (joinResults_ok_iff _ _ _).mp h1
    refine ⟨a, as, (task s).db, (task s).trace, (promiseAll tasks (task s).db).trace,
      ?_, ?_, hl, h3.symm⟩
    · rw [← ha]
    · rw [← has, ← h2]
  · rintro ⟨a, as, s1, t1, t2, h1, h2, rfl, rfl⟩
    rw [h1]
    simp only [h2, joinResults]

/-! ## getStreamEvents -/

/-- The map callback over logs, with event body `mk`. -/
theorem decodeTask_ok_iff {σ : Type} (provider : Provider) (mk : Log → LogArgs → Block → Event)
    (log : Log) (s s2 : σ) (e : Event) (t : List Call) :
    (do
      let data ← attempt (provider.parseLog log)
      let block ← call (.getBlock log.blockNumber) (provider.getBlock log.blockNumber)
      pure (mk log data block) : Eff σ Event) s = ⟨.ok e, s2, t⟩ ↔
      Decoded provider mk log e ∧ s2 = s ∧ t = [.getBlock log.blockNumber] := by
  simp only [bind_ok_iff, attempt_apply, call_apply, pure_apply, Outcome.mk.injEq,
    Except.ok.injEq, Decoded]
  constructor
  · rintro ⟨data, s1, t1, t2, ⟨h1, rfl, rfl⟩, ⟨block, s3, t3, t4, ⟨h2, rfl, rfl⟩,
      ⟨rfl, rfl, rfl⟩, rfl⟩, rfl⟩
    exact ⟨⟨data, block, h1, h2, rfl⟩, rfl, rfl⟩
  · rintro ⟨⟨data, block, h1, h2, rfl⟩, rfl, rfl⟩
    exact ⟨data, s2, [], _, ⟨h1, rfl, rfl⟩, ⟨block, s2, _, [], ⟨h2, rfl, rfl⟩,
      ⟨rfl, rfl, rfl⟩, rfl⟩, rfl⟩

theorem decodeAll_ok_iff {σ : Type} (provider : Provider) (mk : Log → LogArgs → Block → Event)
    (logs : List Log) (s s2 : σ) (es : List Event) (t : List Call) :
    promiseAll (logs.map fun log => (do
      let data ← attempt (provider.parseLog log)
      let block ← call (.getBlock log.blockNumber) (provider.getBlock log.blockNumber)
      pure (mk log data block) : Eff σ Event)) s = ⟨.ok es, s2, t⟩ ↔
      List.Forall₂ (Decoded provider mk) logs es ∧ s2 = s ∧
        t = logs.map (fun l => Call.getBlock l.blockNumber) := by
  induction logs generalizing es t with
  | nil =>
    simp only [List.map_nil, promiseAll_nil, Outcome.mk.injEq, Except.ok.injEq,
      List.forall₂_nil_left_iff]
    constructor
    · rintro ⟨rfl, rfl, rfl⟩; exact ⟨rfl, rfl, rfl⟩
    · rintro ⟨rfl, rfl, rfl⟩; exact ⟨rfl, rfl, rfl⟩
  | cons log logs ih =>
    rw [List.map_cons, promiseAll_cons_ok_iff]
    constructor
    · rintro ⟨a, as, s1, t1, t2, h1, h2, rfl, rfl⟩
      obtain ⟨d1, rfl, rfl⟩ := (decodeTask_ok_iff provider mk log s s1 a t1).mp h1
      obtain ⟨d2, rfl, rfl⟩ := (ih as t2).mp h2
      exact ⟨List.Forall₂.cons d1 d2, rfl, rfl⟩
    · rintro ⟨hf, rfl, rfl⟩
      cases hf with
      | cons d1 d2 =>
        rename_i a as
        exact ⟨a, as, s2, _, _, (decodeTask_ok_iff provider mk log s2 s2 a _).mpr ⟨d1, rfl, rfl⟩,
          (ih as _).mpr ⟨d2, rfl, rfl⟩, rfl, rfl⟩

theorem readOnly_decodeAll {σ : Type} (provider : Provider)
    (mk : Log → LogArgs → Block → Event) (logs : List Log) :
    ReadOnly (promiseAll (logs.map fun log => (do
      let data ← attempt (provider.parseLog log)
      let block ← call (.getBlock log.blockNumber) (provider.getBlock log.blockNumber)
      pure (mk log data block) : Eff σ Event))) := by
  apply readOnly_promiseAll
  intro t ht
  obtain ⟨log, -, rfl⟩ := List.mem_map.mp ht
  exact readOnly_bind (readOnly_attempt _)
    (fun _ => readOnly_bind (readOnly_call _ _ rfl) (fun _ => readOnly_pure _))

theorem readOnly_ite {σ α : Type} (c : Prop) [Decidable c] {m1 m2 : Eff σ α}
    (h1 : ReadOnly m1) (h2 : ReadOnly m2) : ReadOnly (if c then m1 else m2) := by
  split
  · exact h1
  · exact h2

theorem readOnly_getStreamEvents {σ : Type} (provider : Provider) (stream : Stream)
    (fromBlock toBlock : Nat) :
    ReadOnly (getStreamEvents provider stream fromBlock toBlock : Eff σ Snapshot) := by
  unfold getStreamEvents
  refine readOnly_bind (readOnly_ite _ ?_ (readOnly_pure _)) ?_
  · exact readOnly_bind (readOnly_call _ _ rfl)
      (fun _ => readOnly_bind (readOnly_call _ _ rfl) (fun _ => readOnly_pure _))
  · rintro ⟨cap, frequency⟩
    refine readOnly_bind (readOnly_call _ _ rfl) (fun wl => ?_)
    refine readOnly_bind (readOnly_call _ _ rfl) (fun dl => ?_)
    refine readOnly_bind (readOnly_decodeAll _ _ _) (fun wes => ?_)
    refine readOnly_bind (readOnly_ite _ ?_ (readOnly_pure _)) (fun lc => ?_)
    · exact readOnly_bind (readOnly_call _ _ rfl) (fun _ => readOnly_pure _)
    refine readOnly_bind (readOnly_decodeAll _ _ _) (fun des => ?_)
    exact readOnly_bind (readOnly_call _ _ rfl) (fun _ => readOnly_pure _)

/-- Inversion of a resolved `getStreamEvents`: which requests succeeded, what
the snapshot holds and which calls were issued, in order. -/
theorem getStreamEvents_ok_inv {σ : Type} (provider : Provider) (stream : Stream)
    (fromBlock toBlock : Nat) (s s2 : σ) (snap : Snapshot) (tr : List Call)
    (h : getStreamEvents provider stream fromBlock toBlock s = ⟨.ok snap, s2, tr⟩) :
    ∃ cap frequency capTrace wl dl wes lc lcTrace des bal,
      (((!truthyStr stream.cap || !truthyNum stream.frequency) = true ∧
          ∃ c fq, provider.contractCap stream.streamAddress = .ok c ∧
            provider.contractFrequency stream.streamAddress = .ok fq ∧
            cap = some (formatEther c.val) ∧ frequency = some (unitsToNumber fq) ∧
            capTrace = [Call.contractCap stream.streamAddress,
              Call.contractFrequency stream.streamAddress]) ∨
        (¬ (!truthyStr stream.cap || !truthyNum stream.frequency) = true ∧
          cap = stream.cap ∧ frequency = stream.frequency ∧ capTrace = [])) ∧
      provider.getLogs ⟨stream.streamAddress, .Withdraw, fromBlock, toBlock⟩ = .ok wl ∧
      provider.getLogs ⟨stream.streamAddress, .Deposit, fromBlock, toBlock⟩ = .ok dl ∧
      List.Forall₂ (Decoded provider (withdrawEvent stream.streamAddress)) wl wes ∧
      (((wes.length != 0) = true ∧
          ∃ v, provider.contractLast stream.streamAddress = .ok v ∧
            lc = some (unitsToNumber v) ∧
            lcTrace = [Call.contractLast stream.streamAddress]) ∨
        (¬ (wes.length != 0) = true ∧ lc = stream.lastContract ∧ lcTrace = [])) ∧
      List.Forall₂ (Decoded provider (depositEvent stream)) dl des ∧
      provider.getBalance stream.streamAddress = .ok bal ∧
      snap = ⟨stream.streamAddress, lc, cap, frequency, toBlock, formatEther bal, wes ++ des⟩ ∧
      s2 = s ∧
      tr = capTrace ++
        ([Call.getLogs ⟨stream.streamAddress, .Withdraw, fromBlock, toBlock⟩] ++
        ([Call.getLogs ⟨stream.streamAddress, .Deposit, fromBlock, toBlock⟩] ++
        (wl.map (fun l => Call.getBlock l.blockNumber) ++
        (lcTrace ++
        (dl.map (fun l => Call.getBlock l.blockNumber) ++
        [Call.getBalance stream.streamAddress]))))) := by
  unfold getStreamEvents at h
  rw [bind_ok_iff] at h
  obtain ⟨⟨cap, frequency⟩, s1, capTrace, t2, hcap, h, rfl⟩ := h
  rw [bind_ok_iff] at h
  obtain ⟨wl, s3, t3, t4, hwl, h, rfl⟩ := h
  rw [bind_ok_iff] at h
  obtain ⟨dl, s5, t5, t6, hdl, h, rfl⟩ := h
  rw [bind_ok_iff] at h
  obtain ⟨wes, s7, t7, t8, hwes, h, rfl⟩ := h
  rw [bind_ok_iff] at h
  obtain ⟨lc, s9, lcTrace, t10, hlc, h, rfl⟩ := h
  rw [bind_ok_iff] at h
  obtain ⟨des, s11, t11, t12, hdes, h, rfl⟩ := h
  rw [bind_ok_iff] at h
  obtain ⟨bal, s13, t13, t14, hbal, h, rfl⟩ := h
  rw [call_apply] at hwl hdl hbal
  rw [pure_apply] at h
  injection hwl with hwl e1 e2
  injection hdl with hdl e3 e4
  injection hbal with hbal e5 e6
  injection h with h e7 e8
  injection h with h
  obtain ⟨fw, e9, e10⟩ := (decodeAll_ok_iff _ _ _ _ _ _ _).mp hwes
  obtain ⟨fd, e11, e12⟩ := (decodeAll_ok_iff _ _ _ _ _ _ _).mp hdes
  have hcap2 : s1 = s ∧
      (((!truthyStr stream.cap || !truthyNum stream.frequency) = true ∧
          ∃ c fq, provider.contractCap stream.streamAddress = .ok c ∧
            provider.contractFrequency stream.streamAddress = .ok fq ∧
            cap = some (formatEther c.val) ∧ frequency = some (unitsToNumber fq) ∧
            capTrace = [Call.contractCap stream.streamAddress,
              Call.contractFrequency stream.streamAddress]) ∨
        (¬ (!truthyStr stream.cap || !truthyNum stream.frequency) = true ∧
          cap = stream.cap ∧ frequency = stream.frequency ∧ capTrace = [])) := by
    split at hcap
    · rename_i hc
      rw [bind_ok_iff] at hcap
      obtain ⟨c, u1, v1, v2, g1, g2, rfl⟩ := hcap
      rw [bind_ok_iff] at g2
      obtain ⟨fq, u2, v3, v4, g3, g4, rfl⟩ := g2
      rw [call_apply] at g1 g3
      rw [pure_apply] at g4
      injection g1 with g1 a1 a2
      injection g3 with g3 a3 a4
      injection g4 with g4 a5 a6
      injection g4 with g4
      injection g4 with g4 g5
      subst a1 a2 a3 a4 a5 a6
      exact ⟨rfl, Or.inl ⟨hc, c, fq, g1, g3, g4.symm, g5.symm, rfl⟩⟩
    · rename_i hc
      rw [pure_apply] at hcap
      injection hcap with g4 a5 a6
      injection g4 with g4
      injection g4 with g4 g5
      exact ⟨a5.symm, Or.inr ⟨hc, g4.symm, g5.symm, a6.symm⟩⟩
  have hlc2 : s9 = s7 ∧
      (((wes.length != 0) = true ∧
          ∃ v, provider.contractLast stream.streamAddress = .ok v ∧
            lc = some (unitsToNumber v) ∧
            lcTrace = [Call.contractLast stream.streamAddress]) ∨
        (¬ (wes.length != 0) = true ∧ lc = stream.lastContract ∧ lcTrace = [])) := by
    split at hlc
    · rename_i hc
      rw [bind_ok_iff] at hlc
      obtain ⟨v, u1, v1, v2, g1, g2, rfl⟩ := hlc
      rw [call_apply] at g1
      rw [pure_apply] at g2
      injection g1 with g1 a1 a2
      injection g2 with g2 a3 a4
      injection g2 with g2
      subst a1 a2 a3 a4
      exact ⟨rfl, Or.inl ⟨hc, v, g1, g2.symm, rfl⟩⟩
    · rename_i hc
      rw [pure_apply] at hlc
      injection hlc with g2 a3 a4
      injection g2 with g2
      exact ⟨a3.symm, Or.inr ⟨hc, g2.symm, a4.symm⟩⟩
  obtain ⟨e13, hcap3⟩ := hcap2
  obtain ⟨e14, hlc3⟩ := hlc2
  subst e1 e2 e3 e4 e5 e6 e7 e8 e9 e10 e11 e12 e13
  exact ⟨cap, frequency, capTrace, wl, dl, wes, lc, lcTrace, des, bal, hcap3, hwl, hdl, fw, hlc3,
    fd, hbal, h.symm, e14, rfl⟩

theorem bind_call_ok {σ α β : Type} (c : Call) (a : α) (f : α → Eff σ β) (s : σ) :
    (call c (.ok a) >>= f) s = ⟨(f a s).result, (f a s).db, c :: (f a s).trace⟩ := by
  rw [bind_of_ok (call_apply c (.ok a) s)]; rfl

theorem bind_pure_ok {σ α β : Type} (a : α) (f : α → Eff σ β) (s : σ) :
    (pure a >>= f) s = f a s := by
  rw [bind_of_ok (pure_apply a s)]; rfl

theorem bind_assoc_eff {σ α β γ : Type} (m : Eff σ α) (g : α → Eff σ β) (f : β → Eff σ γ) :
    (m >>= g) >>= f = m >>= fun a => g a >>= f := by
  funext s
  rcases outcome_cases (m s) with ⟨a, ha⟩ | ⟨e, he⟩
  · rw [bind_of_ok ha]
    rcases outcome_cases (g a (m s).db) with ⟨b, hb⟩ | ⟨e, he⟩
    · have h1 : (m >>= g) s = ⟨.ok b, (g a (m s).db).db, (m s).trace ++ (g a (m s).db).trace⟩ := by
        rw [bind_of_ok ha]; rw [hb]
      rw [bind_of_ok h1, bind_of_ok hb]
      simp only [List.append_assoc]
    · have h1 : (m >>= g) s = ⟨.error e, (g a (m s).db).db, (m s).trace ++ (g a (m s).db).trace⟩ := by
        rw [bind_of_ok ha]; rw [he]
      rw [bind_of_error h1, bind_of_error he]
  · have h1 : (m >>= g) s = ⟨.error e, (m s).db, (m s).trace⟩ := bind_of_error he
    rw [bind_of_error h1, bind_of_error he]

theorem bind_promiseAll_nil {σ α β : Type} (f : List α → Eff σ β) (s : σ) :
    (promiseAll ([] : List (Eff σ α)) >>= f) s = f [] s := by
  rw [bind_of_ok (promiseAll_nil s)]; rfl

theorem inRange_inverted {provider : Provider} (hr : provider.InRange) {f : Filter}
    {logs : List Log} (hf : f.toBlock < f.fromBlock) (h : provider.getLogs f = .ok logs) :
    logs = [] := by
  cases logs with
  | nil => rfl
  | cons l ls =>
    have := hr f _ h l (List.mem_cons_self _ _)
    omega


theorem chainProvider_inRange (height : Nat) (chain : List (String × EventKind × Log))
    (down : List String) : (chainProvider height chain down).InRange := by
  intro f logs h l hl
  simp only [chainProvider] at h
  split at h
  · cases h
  · injection h with h
    subst h
    obtain ⟨entry, he, rfl⟩ := List.mem_map.mp hl
    have := (List.mem_filter.mp he).2
    simp only [Bool.and_eq_true, decide_eq_true_eq] at this
    exact ⟨this.1.2, this.2⟩

/-- Below `2 ^ 53` the conversion to a JavaScript number is exact. -/
theorem unitsToNumber_exact (x : Uint256) (h : x.val < 2 ^ 53) : unitsToNumber x = x.val := by
  have he : doubleExponent x.val 204 0 = 0 := by
    rw [doubleExponent, if_pos (by simpa using h)]
  unfold unitsToNumber
  simp [he, Nat.mod_one]

/-- Above `2 ^ 53` it rounds: `2 ^ 53 + 1` becomes `2 ^ 53`. -/
theorem unitsToNumber_rounds :
    unitsToNumber ⟨9007199254740993, by decide⟩ = 9007199254740992 := by
  decide

/-! ## updateStreamsForBuilders: shape of a run -/

theorem bind_dbCall_ok {σ α β : Type} (c : Call) (op : σ → Except Err α × σ) (f : α → Eff σ β)
    (s s1 : σ) (a : α) (hop : op s = (.ok a, s1)) :
    (dbCall c op >>= f) s = ⟨(f a s1).result, (f a s1).db, c :: (f a s1).trace⟩ := by
  have h : (dbCall c op : Eff σ α) s = ⟨.ok a, s1, [c]⟩ := by
    rw [dbCall_apply, hop]
  rw [bind_of_ok h]; rfl

theorem bind_dbCall_error {σ α β : Type} (c : Call) (op : σ → Except Err α × σ)
    (f : α → Eff σ β) (s s1 : σ) (e : Err) (hop : op s = (.error e, s1)) :
    (dbCall c op >>= f) s = ⟨.error e, s1, [c]⟩ := by
  have h : (dbCall c op : Eff σ α) s = ⟨.error e, s1, [c]⟩ := by
    rw [dbCall_apply, hop]
  rw [bind_of_error h]

theorem bind_call_error {σ α β : Type} (c : Call) (e : Err) (f : α → Eff σ β) (s : σ) :
    (call c (.error e) >>= f) s = ⟨.error e, s, [c]⟩ :=
  bind_of_error (call_apply c (.error e) s)

theorem tryCatch_of_ok {σ α : Type} {m : Eff σ α} {handler : Err → Eff σ α} {s s1 : σ} {a : α}
    {t1 : List Call} (h : m s = ⟨.ok a, s1, t1⟩) :
    Eff.tryCatch m handler s = ⟨.ok a, s1, t1⟩ := by
  unfold Eff.tryCatch
  rw [h]

theorem tryCatch_of_error {σ α : Type} {m : Eff σ α} {handler : Err → Eff σ α} {s s1 : σ}
    {e : Err} {t1 : List Call} (h : m s = ⟨.error e, s1, t1⟩) :
    Eff.tryCatch m handler s =
      ⟨(handler e s1).result, (handler e s1).db, t1 ++ (handler e s1).trace⟩ := by
  unfold Eff.tryCatch
  rw [h]

/-- The rejection handler of the batch: log, then rethrow wrapped. -/
theorem handler_apply {σ : Type} (e : Err) (s : σ) :
    ((do
      call (.consoleError "Error found. Not updating lastIndexedBlock" e) (.ok ())
      Eff.throw (Err.wrapped e) : Eff σ Nat)) s =
      ⟨.error (Err.wrapped e), s, [.consoleError "Error found. Not updating lastIndexedBlock" e]⟩ := by
  rw [bind_call_ok]; rfl

theorem run_of_height_error {σ : Type} (provider : Provider) (db : Db σ) (max : Option Nat)
    (s : σ) (e : Err) (hb : provider.getBlockNumber = .error e) :
    updateStreamsForBuilders provider db max s = ⟨.error e, s, [.getBlockNumber]⟩ := by
  unfold updateStreamsForBuilders
  simp only [hb, bind_call_error]

theorem run_of_find_error {σ : Type} (provider : Provider) (db : Db σ) (max : Option Nat)
    (s s1 : σ) (H : Nat) (e : Err) (hb : provider.getBlockNumber = .ok H)
    (hf : db.findUpdatableStreams (jsOr (jsNumber max) 100) s = (.error e, s1)) :
    updateStreamsForBuilders provider db max s =
      ⟨.error e, s1, [.getBlockNumber, .findUpdatableStreams (jsOr (jsNumber max) 100)]⟩ := by
  unfold updateStreamsForBuilders
  simp only [hb, bind_call_ok]
  rw [bind_dbCall_error _ _ _ _ _ _ hf]

theorem run_of_find_ok {σ : Type} (provider : Provider) (db : Db σ) (max : Option Nat)
    (s s1 : σ) (H : Nat) (streams : List Stream) (hb : provider.getBlockNumber = .ok H)
    (hf : db.findUpdatableStreams (jsOr (jsNumber max) 100) s = (.ok streams, s1)) :
    updateStreamsForBuilders provider db max s =
      ⟨(Eff.tryCatch (batchBody provider db H streams) (fun e => do
          call (.consoleError "Error found. Not updating lastIndexedBlock" e) (.ok ())
          Eff.throw (Err.wrapped e)) s1).result,
        (Eff.tryCatch (batchBody provider db H streams) (fun e => do
          call (.consoleError "Error found. Not updating lastIndexedBlock" e) (.ok ())
          Eff.throw (Err.wrapped e)) s1).db,
        [.getBlockNumber, .findUpdatableStreams (jsOr (jsNumber max) 100)] ++
        (Eff.tryCatch (batchBody provider db H streams) (fun e => do
          call (.consoleError "Error found. Not updating lastIndexedBlock" e) (.ok ())
          Eff.throw (Err.wrapped e)) s1).trace⟩ := by
  unfold updateStreamsForBuilders
  simp only [hb, bind_call_ok]
  rw [bind_dbCall_ok _ _ _ _ _ _ hf]
  rfl

theorem traceIn_pure {σ α : Type} (P : Call → Prop) (a : α) : TraceIn P (pure a : Eff σ α) := by
  intro s c hc; cases hc

theorem traceIn_throw {σ α : Type} (P : Call → Prop) (e : Err) :
    TraceIn P (Eff.throw e : Eff σ α) := by
  intro s c hc; cases hc

theorem traceIn_call {σ α : Type} {P : Call → Prop} (c : Call) (r : Except Err α) (h : P c) :
    TraceIn P (call c r : Eff σ α) := by
  intro s c2 hc
  rw [call_apply, List.mem_singleton] at hc
  rw [hc]; exact h

theorem traceIn_dbCall {σ α : Type} {P : Call → Prop} (c : Call) (op : σ → Except Err α × σ)
    (h : P c) : TraceIn P (dbCall c op : Eff σ α) := by
  intro s c2 hc
  rw [dbCall_apply, List.mem_singleton] at hc
  rw [hc]; exact h

theorem traceIn_bind {σ α β : Type} {P : Call → Prop} {m : Eff σ α} {f : α → Eff σ β}
    (hm : TraceIn P m) (hf : ∀ a, TraceIn P (f a)) : TraceIn P (m >>= f) := by
  intro s c hc
  rcases outcome_cases (m s) with ⟨a, ha⟩ | ⟨e, he⟩
  · rw [bind_of_ok ha] at hc
    rcases List.mem_append.mp hc with h | h
    · exact hm s c h
    · exact hf a _ c h
  · rw [bind_of_error he] at hc
    exact hm s c hc

theorem traceIn_tryCatch {σ α : Type} {P : Call → Prop} {m : Eff σ α} {handler : Err → Eff σ α}
    (hm : TraceIn P m) (hh : ∀ e, TraceIn P (handler e)) : TraceIn P (Eff.tryCatch m handler) := by
  intro s c hc
  rcases outcome_cases (m s) with ⟨a, ha⟩ | ⟨e, he⟩
  · rw [tryCatch_of_ok ha] at hc
    exact hm s c hc
  · rw [tryCatch_of_error he] at hc
    rcases List.mem_append.mp hc with h | h
    · exact hm s c h
    · exact hh e _ c h

theorem traceIn_promiseAll {σ α : Type} {P : Call → Prop} (tasks : List (Eff σ α))
    (h : ∀ t ∈ tasks, TraceIn P t) : TraceIn P (promiseAll tasks) := by
  induction tasks with
  | nil => intro s c hc; cases hc
  | cons t ts ih =>
    intro s c hc
    rw [promiseAll_cons] at hc
    rcases List.mem_append.mp hc with h1 | h1
    · exact h t (List.mem_cons_self _ _) s c h1
    · exact ih (fun x hx => h x (List.mem_cons_of_mem _ hx)) _ c h1

theorem traceIn_of_readOnly {σ α : Type} {m : Eff σ α} (h : ReadOnly m) :
    TraceIn (fun c => c.isRead = true) m := by
  intro s c hc
  exact (h s s).2.2.2 c hc

theorem traceIn_mono {σ α : Type} {P Q : Call → Prop} {m : Eff σ α} (h : TraceIn P m)
    (hpq : ∀ c, P c → Q c) : TraceIn Q m := by
  intro s c hc
  exact hpq c (h s c hc)

theorem readOnly_syncTask {σ : Type} (provider : Provider) (H : Nat) (stream : Stream) :
    ReadOnly (syncTask provider H stream : Eff σ (Snapshot × Stream)) := by
  unfold syncTask
  exact readOnly_bind (readOnly_getStreamEvents _ _ _ _) (fun _ => readOnly_pure _)

theorem readOnly_syncAll {σ : Type} (provider : Provider) (H : Nat) (streams : List Stream) :
    ReadOnly (promiseAll (streams.map (syncTask provider H)) :
      Eff σ (List (Snapshot × Stream))) := by
  apply readOnly_promiseAll
  intro t ht
  obtain ⟨stream, -, rfl⟩ := List.mem_map.mp ht
  exact readOnly_syncTask _ _ _

/-- The write task issues the same calls whatever the database answers. -/
theorem persistTask_trace {σ : Type} (db : Db σ) (streamUpdate : Snapshot) (stream : Stream)
    (s : σ) : (persistTask db streamUpdate stream s).trace = persistTrace streamUpdate stream := by
  unfold persistTask persistTrace
  split
  · rw [bind_call_ok]
    rcases hq : db.updateStreamData stream streamUpdate s with ⟨r, s1⟩
    cases r with
    | ok u => rw [bind_dbCall_ok _ _ _ _ _ _ hq]; rfl
    | error e => rw [bind_dbCall_error _ _ _ _ _ _ hq]
  · split
    · rw [bind_call_ok]
      rcases hq : db.updateStreamData stream streamUpdate s with ⟨r, s1⟩
      cases r with
      | ok u => rw [bind_dbCall_ok _ _ _ _ _ _ hq]; rfl
      | error e => rw [bind_dbCall_error _ _ _ _ _ _ hq]
    · rfl

/-- A write task that resolves contributes 1 if it wrote and 0 if not. -/
theorem persistTask_count {σ : Type} (db : Db σ) (streamUpdate : Snapshot) (stream : Stream)
    (s s2 : σ) (n : Nat) (t : List Call)
    (h : persistTask db streamUpdate stream s = ⟨.ok n, s2, t⟩) :
    n = ((persistTrace streamUpdate stream).filter Call.isUpdateStreamData).length := by
  unfold persistTask at h
  unfold persistTrace
  by_cases h1 : (streamUpdate.events.length != 0) = true
  · rw [if_pos h1] at h ⊢
    rw [bind_ok_iff] at h
    obtain ⟨a, s1, t1, t2, -, h, -⟩ := h
    rw [bind_ok_iff] at h
    obtain ⟨a2, s3, t3, t4, -, h, -⟩ := h
    rw [pure_apply] at h
    injection h with h
    injection h with h
    rw [← h]; rfl
  · rw [if_neg h1] at h ⊢
    by_cases h2 : (!truthyNum stream.lastIndexedBlock) = true
    · rw [if_pos h2] at h ⊢
      rw [bind_ok_iff] at h
      obtain ⟨a, s1, t1, t2, -, h, -⟩ := h
      rw [bind_ok_iff] at h
      obtain ⟨a2, s3, t3, t4, -, h, -⟩ := h
      rw [pure_apply] at h
      injection h with h
      injection h with h
      rw [← h]; rfl
    · rw [if_neg h2] at h ⊢
      rw [pure_apply] at h
      injection h with h
      injection h with h
      rw [← h]; rfl

theorem persistAll_trace {σ : Type} (db : Db σ) (rs : List (Snapshot × Stream)) (s : σ) :
    (promiseAll (rs.map fun r => persistTask db r.1 r.2) s).trace = persistTraces rs := by
  induction rs generalizing s with
  | nil => rfl
  | cons r rs ih =>
    rw [List.map_cons, promiseAll_cons]
    simp only [persistTraces, persistTask_trace, ih]

theorem persistAll_count {σ : Type} (db : Db σ) (rs : List (Snapshot × Stream)) (s s2 : σ)
    (counts : List Nat) (t : List Call)
    (h : promiseAll (rs.map fun r => persistTask db r.1 r.2) s = ⟨.ok counts, s2, t⟩) :
    counts.sum = ((persistTraces rs).filter Call.isUpdateStreamData).length := by
  induction rs generalizing s counts t with
  | nil =>
    rw [List.map_nil, promiseAll_nil] at h
    injection h with h
    injection h with h
    rw [← h]; rfl
  | cons r rs ih =>
    rw [List.map_cons, promiseAll_cons_ok_iff] at h
    obtain ⟨a, as, s1, t1, t2, h1, h2, rfl, rfl⟩ := h
    have := persistTask_count _ _ _ _ _ _ _ h1
    have ih2 := ih _ _ _ h2
    simp only [persistTraces, List.sum_cons, List.filter_append, List.length_append, this, ih2]

theorem syncTask_ok_inv {σ : Type} (provider : Provider) (H : Nat) (stream : Stream) (s s2 : σ)
    (r : Snapshot × Stream) (t : List Call) (h : syncTask provider H stream s = ⟨.ok r, s2, t⟩) :
    r.2 = stream ∧ s2 = s ∧
      getStreamEvents provider stream (stream.lastIndexedBlock.getD 0 + 1) H s = ⟨.ok r.1, s, t⟩ := by
  unfold syncTask at h
  rw [bind_ok_iff] at h
  obtain ⟨snap, s1, t1, t2, h1, h2, rfl⟩ := h
  rw [pure_apply] at h2
  injection h2 with h2 e1 e2
  injection h2 with h2
  have hs : s1 = s := by
    have := (@readOnly_getStreamEvents σ provider stream
      (stream.lastIndexedBlock.getD 0 + 1) H s s).1
    rw [h1] at this
    exact this
  subst e1 e2 h2 hs
  exact ⟨rfl, rfl, by rw [h1, List.append_nil]⟩

/-- When all the syncs resolve, the results pair each stream, in order, with
the snapshot `getStreamEvents` resolved to for it. -/
theorem syncAll_ok_inv {σ : Type} (provider : Provider) (H : Nat) (streams : List Stream)
    (s s2 : σ) (rs : List (Snapshot × Stream)) (t : List Call)
    (h : promiseAll (streams.map (syncTask provider H)) s = ⟨.ok rs, s2, t⟩) :
    s2 = s ∧
    List.Forall₂ (fun stream r => r.2 = stream ∧
      (getStreamEvents provider stream (stream.lastIndexedBlock.getD 0 + 1) H s).result =
        .ok r.1) streams rs := by
  induction streams generalizing rs t with
  | nil =>
    rw [List.map_nil, promiseAll_nil] at h
    injection h with h e1 e2
    injection h with h
    subst h e1
    exact ⟨rfl, List.Forall₂.nil⟩
  | cons stream streams ih =>
    rw [List.map_cons, promiseAll_cons_ok_iff] at h
    obtain ⟨a, as, s1, t1, t2, h1, h2, rfl, rfl⟩ := h
    obtain ⟨g1, g2, g3⟩ := syncTask_ok_inv _ _ _ _ _ _ _ h1
    subst g2
    obtain ⟨i1, i2⟩ := ih _ _ h2
    exact ⟨i1, List.Forall₂.cons ⟨g1, by rw [g3]⟩ i2⟩

/-- A rejected sync rejects the whole `Promise.all` of the syncs. -/
theorem syncAll_error_of_mem {σ : Type} (provider : Provider) (H : Nat) (streams : List Stream)
    (s : σ) (stream : Stream) (e : Err) (hmem : stream ∈ streams)
    (hfail : (getStreamEvents provider stream (stream.lastIndexedBlock.getD 0 + 1) H s).result =
      .error e) :
    ∃ e2, (promiseAll (streams.map (syncTask provider H)) s).result = .error e2 := by
  rcases outcome_cases (promiseAll (streams.map (syncTask provider H)) s) with ⟨rs, h⟩ | ⟨e2, h⟩
  · obtain ⟨-, hf⟩ := syncAll_ok_inv _ _ _ _ _ _ _ h
    have : ∀ (l : List Stream) (rs : List (Snapshot × Stream)),
        List.Forall₂ (fun stream r => r.2 = stream ∧
          (getStreamEvents provider stream (stream.lastIndexedBlock.getD 0 + 1) H s).result =
            .ok r.1) l rs → stream ∈ l → False := by
      intro l rs hf
      induction hf with
      | nil => intro hm; cases hm
      | cons hd _ ih =>
        intro hm
        rcases List.mem_cons.mp hm with rfl | hm
        · rw [hfail] at hd
          cases hd.2
        · exact ih hm
    exact (this _ _ hf hmem).elim
  · exact ⟨e2, by rw [h]⟩

/-- Inversion of a promise chain that resolved. -/
theorem batchBody_ok_inv {σ : Type} (provider : Provider) (db : Db σ) (H : Nat)
    (streams : List Stream) (s s3 : σ) (n : Nat) (t : List Call)
    (h : batchBody provider db H streams s = ⟨.ok n, s3, t⟩) :
    ∃ rs t1 s2,
      promiseAll (streams.map (syncTask provider H)) s = ⟨.ok rs, s, t1⟩ ∧
      (s2 = (promiseAll (rs.map fun r => persistTask db r.1 r.2) s).db ∧
        db.setConfigData "streams" H s2 = (.ok (), s3)) ∧
      n = ((persistTraces rs).filter Call.isUpdateStreamData).length ∧
      t = t1 ++ (persistTraces rs ++ [Call.consoleLog "Updating stream lastIndexedBlock" (toString H),
        Call.setConfigData "streams" H]) := by
  unfold batchBody at h
  rw [bind_ok_iff] at h
  obtain ⟨rs, s1, t1, t2, h1, h, rfl⟩ := h
  rw [bind_ok_iff] at h
  obtain ⟨counts, s2, t3, t4, h2, h, rfl⟩ := h
  rw [bind_ok_iff] at h
  obtain ⟨u, s4, t5, t6, h3, h, rfl⟩ := h
  rw [bind_ok_iff] at h
  obtain ⟨u2, s5, t7, t8, h4, h, rfl⟩ := h
  rw [pure_apply] at h
  rw [call_apply] at h3
  rw [dbCall_apply] at h4
  injection h with h e1 e2
  injection h with h
  injection h3 with h3 e3 e4
  injection h4 with h4 e5 e6
  have hs1 := (syncAll_ok_inv _ _ _ _ _ _ _ h1).1
  have htr := persistAll_trace db rs s1
  rw [h2] at htr
  have hcount := persistAll_count _ _ _ _ _ _ h2
  subst e1 e2 e3 e4 e6 hs1 h
  simp only at htr
  subst htr
  refine ⟨rs, t1, s2, h1, ⟨by rw [h2], ?_⟩, hcount, by simp⟩
  rw [← e5, ← h4]

/-- A rejected sync phase rejects the promise chain before any write. -/
theorem batchBody_of_sync_error {σ : Type} (provider : Provider) (db : Db σ) (H : Nat)
    (streams : List Stream) (s : σ) (e : Err)
    (h : (promiseAll (streams.map (syncTask provider H)) s).result = .error e) :
    batchBody provider db H streams s =
      ⟨.error e, s, (promiseAll (streams.map (syncTask provider H)) s).trace⟩ := by
  unfold batchBody
  have h0 := outcome_eta (promiseAll (streams.map (syncTask provider H)) s)
  rw [h, (readOnly_syncAll provider H streams s s).1] at h0
  rw [bind_of_error h0]

/-- Every call of a run is the height request, the stream query with the
computed limit, a chain read, a log line, a snapshot write or the watermark
write. -/
theorem traceIn_updateStreamsForBuilders {σ : Type} (provider : Provider) (db : Db σ)
    (max : Option Nat) (P : Call → Prop)
    (h1 : P .getBlockNumber) (h2 : P (.findUpdatableStreams (jsOr (jsNumber max) 100)))
    (h3 : ∀ c, c.isRead = true → P c) (h4 : ∀ m a, P (.consoleLog m a))
    (h5 : ∀ m e, P (.consoleError m e)) (h6 : ∀ stream snap, P (.updateStreamData stream snap))
    (h7 : ∀ k v, P (.setConfigData k v)) :
    TraceIn P (updateStreamsForBuilders provider db max) := by
  unfold updateStreamsForBuilders
  refine traceIn_bind (traceIn_call _ _ h1) (fun H => ?_)
  refine traceIn_bind (traceIn_dbCall _ _ h2) (fun streams => ?_)
  refine traceIn_tryCatch ?_ (fun e => ?_)
  · refine traceIn_bind (traceIn_mono (traceIn_of_readOnly (readOnly_syncAll _ _ _)) h3)
      (fun rs => ?_)
    refine traceIn_bind ?_ (fun counts => ?_)
    · apply traceIn_promiseAll
      intro t ht
      obtain ⟨r, -, rfl⟩ := List.mem_map.mp ht
      intro s c hc
      rw [persistTask_trace] at hc
      unfold persistTrace at hc
      split at hc
      · rcases List.mem_cons.mp hc with rfl | hc
        · exact h4 _ _
        · rw [List.mem_singleton] at hc; rw [hc]; exact h6 _ _
      · split at hc
        · rcases List.mem_cons.mp hc with rfl | hc
          · exact h4 _ _
          · rw [List.mem_singleton] at hc; rw [hc]; exact h6 _ _
        · cases hc
    · exact traceIn_bind (traceIn_call _ _ (h4 _ _))
        (fun _ => traceIn_bind (traceIn_dbCall _ _ (h7 _ _)) (fun _ => traceIn_pure _ _))
  · exact traceIn_bind (traceIn_call _ _ (h5 _ _)) (fun _ => traceIn_throw _ _)

/-- A run whose height request resolved starts with that request and the
stream query. -/
theorem run_trace_prefix {σ : Type} (provider : Provider) (db : Db σ) (max : Option Nat)
    (s : σ) (H : Nat) (hb : provider.getBlockNumber = .ok H) :
    ∃ rest, (updateStreamsForBuilders provider db max s).trace =
      Call.getBlockNumber :: Call.findUpdatableStreams (jsOr (jsNumber max) 100) :: rest := by
  rcases hq : db.findUpdatableStreams (jsOr (jsNumber max) 100) s with ⟨r, s1⟩
  cases r with
  | error e => exact ⟨[], by rw [run_of_find_error _ _ _ _ _ _ _ hb hq]⟩
  | ok streams => exact ⟨_, by rw [run_of_find_ok _ _ _ _ _ _ _ hb hq]; rfl⟩

/-- Inversion of a run that returned a count. -/
theorem run_ok_inv {σ : Type} (provider : Provider) (db : Db σ) (max : Option Nat) (s : σ)
    (n : Nat) (h : (updateStreamsForBuilders provider db max s).result = .ok n) :
    ∃ H streams s1 rs t1 s2,
      provider.getBlockNumber = .ok H ∧
      db.findUpdatableStreams (jsOr (jsNumber max) 100) s = (.ok streams, s1) ∧
      promiseAll (streams.map (syncTask provider H)) s1 = ⟨.ok rs, s1, t1⟩ ∧
      (s2 = (promiseAll (rs.map fun r => persistTask db r.1 r.2) s1).db ∧
        db.setConfigData "streams" H s2 =
          (.ok (), (updateStreamsForBuilders provider db max s).db)) ∧
      n = ((persistTraces rs).filter Call.isUpdateStreamData).length ∧
      (updateStreamsForBuilders provider db max s).trace =
        [Call.getBlockNumber, Call.findUpdatableStreams (jsOr (jsNumber max) 100)] ++
          (t1 ++ (persistTraces rs ++ [Call.consoleLog "Updating stream lastIndexedBlock" (toString H),
            Call.setConfigData "streams" H])) := by
  cases hb : provider.getBlockNumber with
  | error e =>
    rw [run_of_height_error _ _ _ _ _ hb] at h
    cases h
  | ok H =>
    rcases hq : db.findUpdatableStreams (jsOr (jsNumber max) 100) s with ⟨r, s1⟩
    cases r with
    | error e =>
      rw [run_of_find_error _ _ _ _ _ _ _ hb hq] at h
      cases h
    | ok streams =>
      have hrun := run_of_find_ok _ _ _ _ _ _ _ hb hq
      rw [hrun] at h ⊢
      rcases outcome_cases (batchBody provider db H streams s1) with ⟨a, ha⟩ | ⟨e, he⟩
      · rw [tryCatch_of_ok ha] at h ⊢
        simp only at h
        injection h with h
        subst h
        obtain ⟨rs, t1, s2, g1, g2, g3, g4⟩ := batchBody_ok_inv _ _ _ _ _ _ _ _ ha
        exact ⟨H, streams, s1, rs, t1, s2, rfl, rfl, g1, g2, g3, by simp only; rw [g4]⟩
      · rw [tryCatch_of_error he, handler_apply] at h
        cases h

theorem getStreamEvents_lastBlock {σ : Type} (provider : Provider) (stream : Stream)
    (fromBlock toBlock : Nat) (s : σ) (snap : Snapshot)
    (h : (getStreamEvents provider stream fromBlock toBlock s).result = .ok snap) :
    snap.lastBlock = toBlock := by
  have h0 := outcome_eta (getStreamEvents provider stream fromBlock toBlock s)
  rw [h] at h0
  obtain ⟨cap, frequency, capTrace, wl, dl, wes, lc, lcTrace, des, bal, -, -, -, -, -, -,
    -, hsnap, -, -⟩ := getStreamEvents_ok_inv _ _ _ _ _ _ _ _ h0
  rw [hsnap]

/-- Over an inverted range a node that respects the queried range yields no
event. -/
theorem getStreamEvents_events_nil {σ : Type} (provider : Provider) (stream : Stream)
    (fromBlock toBlock : Nat) (s : σ) (snap : Snapshot) (hr : provider.InRange)
    (hlt : toBlock < fromBlock)
    (h : (getStreamEvents provider stream fromBlock toBlock s).result = .ok snap) :
    snap.events = [] := by
  have h0 := outcome_eta (getStreamEvents provider stream fromBlock toBlock s)
  rw [h] at h0
  obtain ⟨cap, frequency, capTrace, wl, dl, wes, lc, lcTrace, des, bal, -, hw, hd, fw, -, fd,
    -, hsnap, -, -⟩ := getStreamEvents_ok_inv _ _ _ _ _ _ _ _ h0
  have hwl : wl = [] := inRange_inverted hr hlt hw
  have hdl : dl = [] := inRange_inverted hr hlt hd
  subst hwl hdl
  cases fw
  cases fd
  rw [hsnap]
  rfl

theorem mem_persistTraces {c : Call} {rs : List (Snapshot × Stream)} :
    c ∈ persistTraces rs ↔ ∃ r ∈ rs, c ∈ persistTrace r.1 r.2 := by
  induction rs with
  | nil => simp [persistTraces]
  | cons r rs ih => simp [persistTraces, ih]

/-- A write in the calls of a write task is the write of that task's stream
and snapshot, and the task's condition held. -/
theorem mem_persistTrace_update {stream st : Stream} {snap sn : Snapshot}
    (h : Call.updateStreamData st sn ∈ persistTrace snap stream) :
    st = stream ∧ sn = snap ∧
      (snap.events.length ≠ 0 ∨ truthyNum stream.lastIndexedBlock = false) := by
  unfold persistTrace at h
  by_cases h1 : (snap.events.length != 0) = true
  · rw [if_pos h1] at h
    simp only [List.mem_cons, reduceCtorEq, List.mem_singleton, Call.updateStreamData.injEq,
      false_or, List.not_mem_nil, or_false] at h
    exact ⟨h.1, h.2, Or.inl (by simpa using h1)⟩
  · rw [if_neg h1] at h
    by_cases h2 : (!truthyNum stream.lastIndexedBlock) = true
    · rw [if_pos h2] at h
      simp only [List.mem_cons, reduceCtorEq, List.mem_singleton, Call.updateStreamData.injEq,
        false_or, List.not_mem_nil, or_false] at h
      exact ⟨h.1, h.2, Or.inr (by simpa using h2)⟩
    · rw [if_neg h2] at h
      cases h

theorem forall₂_mem_right {α β : Type} {R : α → β → Prop} {l : List α} {rs : List β}
    (h : List.Forall₂ R l rs) {r : β} (hr : r ∈ rs) : ∃ a ∈ l, R a r := by
  induction h with
  | nil => cases hr
  | cons hd _ ih =>
    rcases List.mem_cons.mp hr with rfl | hr
    · exact ⟨_, List.mem_cons_self _ _, hd⟩
    · obtain ⟨a, ha, hR⟩ := ih hr
      exact ⟨a, List.mem_cons_of_mem _ ha, hR⟩

/-- Number of writes of one stream's snapshot among the write tasks. -/
theorem count_persistTraces {σ : Type} (provider : Provider) (H : Nat) (s : σ) (stream : Stream)
    (snap : Snapshot)
    (hsync : (getStreamEvents provider stream (stream.lastIndexedBlock.getD 0 + 1) H s).result =
      .ok snap)
    (hq : snap.events.length ≠ 0 ∨ truthyNum stream.lastIndexedBlock = false)
    {streams : List Stream} {rs : List (Snapshot × Stream)}
    (h : List.Forall₂ (fun stream r => r.2 = stream ∧
      (getStreamEvents provider stream (stream.lastIndexedBlock.getD 0 + 1) H s).result =
        .ok r.1) streams rs) :
    (persistTraces rs).count (Call.updateStreamData stream snap) = streams.count stream := by
  induction h with
  | nil => rfl
  | cons hd _ ih =>
    rename_i a r l rl _
    obtain ⟨h1, h2⟩ := hd
    rw [persistTraces, List.count_append, ih, List.count_cons]
    by_cases ha : a = stream
    · subst ha
      rw [hsync] at h2
      injection h2 with h2
      have hr : r = (snap, a) := by
        rcases r with ⟨r1, r2⟩
        simp only at h1 h2
        rw [h1, h2]
      subst hr
      have : (persistTrace snap a).count (Call.updateStreamData a snap) = 1 := by
        unfold persistTrace
        rcases hq with hq | hq
        · have : (snap.events.length != 0) = true := by simpa using hq
          rw [if_pos this]
          simp [List.count_cons]
        · by_cases h3 : (snap.events.length != 0) = true
          · rw [if_pos h3]
            simp [List.count_cons]
          · rw [if_neg h3, if_pos (by simp [hq])]
            simp [List.count_cons]
      simp only [this, beq_self_eq_true, if_true]
      omega
    · have : (persistTrace r.1 r.2).count (Call.updateStreamData stream snap) = 0 := by
        rw [List.count_eq_zero]
        intro hc
        have := (mem_persistTrace_update hc).1
        rw [h1] at this
        exact ha this.symm
      have hne : (a == stream) = false := by simpa using ha
      simp only [this, hne]
      simp

theorem syncTask_of_ok {σ : Type} (provider : Provider) (H : Nat) (stream : Stream) (s : σ)
    (snap : Snapshot)
    (h : (getStreamEvents provider stream (stream.lastIndexedBlock.getD 0 + 1) H s).result =
      .ok snap) :
    syncTask provider H stream s = ⟨.ok (snap, stream), s,
      (getStreamEvents provider stream (stream.lastIndexedBlock.getD 0 + 1) H s).trace⟩ := by
  have h0 := outcome_eta (getStreamEvents provider stream (stream.lastIndexedBlock.getD 0 + 1) H s)
  rw [h, (readOnly_getStreamEvents provider stream _ H s s).1] at h0
  unfold syncTask
  rw [bind_of_ok h0]
  simp [pure_apply]

/-- When every sync of the batch resolves, so does the `Promise.all` of the
syncs. -/
theorem syncAll_ok_of_forall {σ : Type} (provider : Provider) (H : Nat) (streams : List Stream)
    (s : σ)
    (h : ∀ st ∈ streams, ∃ sn,
      (getStreamEvents provider st (st.lastIndexedBlock.getD 0 + 1) H s).result = .ok sn) :
    ∃ rs t1, promiseAll (streams.map (syncTask provider H)) s = ⟨.ok rs, s, t1⟩ := by
  induction streams with
  | nil => exact ⟨[], [], rfl⟩
  | cons st streams ih =>
    obtain ⟨sn, hsn⟩ := h st (List.mem_cons_self _ _)
    obtain ⟨rs, t1, hrs⟩ := ih (fun x hx => h x (List.mem_cons_of_mem _ hx))
    refine ⟨(sn, st) :: rs,
      (getStreamEvents provider st (st.lastIndexedBlock.getD 0 + 1) H s).trace ++ t1, ?_⟩
    rw [List.map_cons]
    exact (promiseAll_cons_ok_iff _ _ _ _ _ _).mpr
      ⟨(sn, st), rs, s, _, t1, syncTask_of_ok provider H st s sn hsn, hrs, rfl, rfl⟩

/-- Calls of the promise chain once the syncs have resolved: the reads, the
calls of the write tasks, and then at most the log line and the watermark
write. -/
theorem batchBody_trace_of_sync_ok {σ : Type} (provider : Provider) (db : Db σ) (H : Nat)
    (streams : List Stream) (s : σ) (rs : List (Snapshot × Stream)) (t1 : List Call)
    (h1 : promiseAll (streams.map (syncTask provider H)) s = ⟨.ok rs, s, t1⟩) :
    ∃ tail, (batchBody provider db H streams s).trace = t1 ++ (persistTraces rs ++ tail) ∧
      (∀ c ∈ tail, c.isUpdateStreamData = false) ∧
      ∀ n, (batchBody provider db H streams s).result = .ok n →
        n = ((persistTraces rs).filter Call.isUpdateStreamData).length := by
  have htr := persistAll_trace db rs s
  unfold batchBody
  rw [bind_of_ok h1]
  rcases outcome_cases (promiseAll (rs.map fun r => persistTask db r.1 r.2) s) with
    ⟨counts, h2⟩ | ⟨e, h2⟩
  · have hcount := persistAll_count _ _ _ _ _ _ h2
    rw [bind_of_ok h2, htr, bind_call_ok]
    rcases hq : db.setConfigData "streams" H
      (promiseAll (rs.map fun r => persistTask db r.1 r.2) s).db with ⟨r, s3⟩
    cases r with
    | ok u =>
      rw [bind_dbCall_ok _ _ _ _ _ _ hq]
      refine ⟨[Call.consoleLog "Updating stream lastIndexedBlock" (toString H),
        Call.setConfigData "streams" H], by simp [pure_apply], ?_, ?_⟩
      · intro c hc
        simp only [List.mem_cons, List.mem_singleton, List.not_mem_nil, or_false] at hc
        rcases hc with rfl | rfl <;> rfl
      · intro n hn
        simp only [pure_apply] at hn
        injection hn with hn
        rw [← hn]; exact hcount
    | error e =>
      rw [bind_dbCall_error _ _ _ _ _ _ hq]
      refine ⟨[Call.consoleLog "Updating stream lastIndexedBlock" (toString H),
        Call.setConfigData "streams" H], by simp, ?_, ?_⟩
      · intro c hc
        simp only [List.mem_cons, List.mem_singleton, List.not_mem_nil, or_false] at hc
        rcases hc with rfl | rfl <;> rfl
      · intro n hn
        cases hn
  · rw [bind_of_error h2, htr]
    refine ⟨[], by simp, ?_, ?_⟩
    · intro c hc; cases hc
    · intro n hn
      cases hn

/-- Calls and result of a run whose height request, stream query and syncs
resolved. -/
theorem run_of_sync_ok {σ : Type} (provider : Provider) (db : Db σ) (max : Option Nat)
    (s s1 : σ) (H : Nat) (streams : List Stream) (rs : List (Snapshot × Stream))
    (t1 : List Call) (hb : provider.getBlockNumber = .ok H)
    (hf : db.findUpdatableStreams (jsOr (jsNumber max) 100) s = (.ok streams, s1))
    (h1 : promiseAll (streams.map (syncTask provider H)) s1 = ⟨.ok rs, s1, t1⟩) :
    ∃ tail, (updateStreamsForBuilders provider db max s).trace =
        [Call.getBlockNumber, Call.findUpdatableStreams (jsOr (jsNumber max) 100)] ++
          (t1 ++ (persistTraces rs ++ tail)) ∧
      (∀ c ∈ tail, c.isUpdateStreamData = false) ∧
      ∀ n, (updateStreamsForBuilders provider db max s).result = .ok n →
        n = ((persistTraces rs).filter Call.isUpdateStreamData).length := by
  obtain ⟨tail, htr, htail, hn⟩ := batchBody_trace_of_sync_ok provider db H streams s1 rs t1 h1
  rw [run_of_find_ok _ _ _ _ _ _ _ hb hf]
  rcases outcome_cases (batchBody provider db H streams s1) with ⟨a, ha⟩ | ⟨e, he⟩
  · rw [tryCatch_of_ok ha]
    rw [ha] at htr hn
    simp only at htr hn
    exact ⟨tail, by simp only; rw [htr], htail, hn⟩
  · rw [tryCatch_of_error he, handler_apply]
    rw [he] at htr
    simp only at htr
    refine ⟨tail ++ [Call.consoleError "Error found. Not updating lastIndexedBlock" e],
      by simp only; rw [htr]; simp, ?_, ?_⟩
    · intro c hc
      rcases List.mem_append.mp hc with hc | hc
      · exact htail c hc
      · rw [List.mem_singleton] at hc; rw [hc]; rfl
    · intro n hn2
      cases hn2

/-! ## Claims on getStreamEvents -/

theorem forall₂_decoded_type {provider : Provider} {mk : Log → LogArgs → Block → Event}
    (ty : String) (hmk : ∀ l d b, (mk l d b).type = ty) {logs : List Log} {es : List Event}
    (h : List.Forall₂ (Decoded provider mk) logs es) : ∀ e ∈ es, e.type = ty := by
  induction h with
  | nil => intro e he; cases he
  | cons hd _ ih =>
    intro e he
    rcases List.mem_cons.mp he with rfl | he
    · obtain ⟨d, b, -, -, rfl⟩ := hd
      exact hmk _ _ _
    · exact ih e he

theorem forall₂_decoded_block {provider : Provider} {mk : Log → LogArgs → Block → Event}
    (hmk : ∀ l d b, (mk l d b).payload.block = l.blockNumber) {logs : List Log}
    {es : List Event} (h : List.Forall₂ (Decoded provider mk) logs es) :
    es.map (fun e => e.payload.block) = logs.map (fun l => l.blockNumber) := by
  induction h with
  | nil => rfl
  | cons hd _ ih =>
    obtain ⟨d, b, -, -, rfl⟩ := hd
    simp only [List.map_cons, ih, hmk]

/-- C3 (amended): on an inverted range (`fromBlock > toBlock`) `getStreamEvents`
does not skip the log queries.  When the node answers them with logs of the
queried range only (hence with none), the balance read succeeds and, if cap or
frequency is not cached, the two contract reads succeed, it has made exactly
the two log queries, Withdraw then Deposit, over that range, and it returns a
snapshot with no events whose `lastContract` is the cached one and whose cap
and frequency are the cached ones when both are cached and otherwise the ones
freshly read (the cap formatted as ether, the frequency converted to a
JavaScript number); the only other calls are those reads and the balance
read. -/
theorem getStreamEvents_inverted_range {σ : Type} (provider : Provider) (stream : Stream)
    (fromBlock toBlock : Nat) (s : σ)
    (wl dl : List Log) (bal : Nat) (c fq : Uint256)
    (hlt : toBlock < fromBlock) (hr : provider.InRange)
    (hw : provider.getLogs ⟨stream.streamAddress, .Withdraw, fromBlock, toBlock⟩ = .ok wl)
    (hd : provider.getLogs ⟨stream.streamAddress, .Deposit, fromBlock, toBlock⟩ = .ok dl)
    (hb : provider.getBalance stream.streamAddress = .ok bal)
    (hcf : (!truthyStr stream.cap || !truthyNum stream.frequency) = true →
      provider.contractCap stream.streamAddress = .ok c ∧
      provider.contractFrequency stream.streamAddress = .ok fq) :
    getStreamEvents provider stream fromBlock toBlock s =
      ⟨.ok ⟨stream.streamAddress, stream.lastContract,
          if (!truthyStr stream.cap || !truthyNum stream.frequency) = true
            then some (formatEther c.val) else stream.cap,
          if (!truthyStr stream.cap || !truthyNum stream.frequency) = true
            then some (unitsToNumber fq) else stream.frequency,
          toBlock, formatEther bal, []⟩, s,
        (if (!truthyStr stream.cap || !truthyNum stream.frequency) = true
          then [Call.contractCap stream.streamAddress, Call.contractFrequency stream.streamAddress]
          else []) ++
        [Call.getLogs ⟨stream.streamAddress, .Withdraw, fromBlock, toBlock⟩,
          Call.getLogs ⟨stream.streamAddress, .Deposit, fromBlock, toBlock⟩,
          Call.getBalance stream.streamAddress]⟩ := by
  have hwl : wl = [] := inRange_inverted hr hlt hw
  have hdl : dl = [] := inRange_inverted hr hlt hd
  subst hwl hdl
  unfold getStreamEvents
  by_cases hc : (!truthyStr stream.cap || !truthyNum stream.frequency) = true
  · obtain ⟨h1, h2⟩ := hcf hc
    simp only [hc, if_true, h1, h2, hw, hd, hb, bind_assoc_eff, bind_call_ok, bind_pure_ok, List.map_nil,
      bind_promiseAll_nil, pure_apply, List.length_nil, bne_self_eq_false, Bool.false_eq_true,
      if_false, List.append_nil, List.cons_append, List.nil_append]
  · simp only [hc, if_false, hw, hd, hb, bind_call_ok, bind_pure_ok, List.map_nil,
      bind_promiseAll_nil, pure_apply, List.length_nil, bne_self_eq_false, Bool.false_eq_true,
      List.append_nil, List.cons_append, List.nil_append]

/-- Witness of C3 (amended): a stream synced up to the current height 150,
queried over the inverted range from 151 to 150. -/
theorem getStreamEvents_inverted_range_witness :
    getStreamEvents (chainProvider 150 sampleChain []) streamQuiet 151 150 () =
      ⟨.ok ⟨"0xS4", some 5, some "0.5", some 2592000, 150, formatEther 1500000000000000000, []⟩,
        (),
        [Call.getLogs ⟨"0xS4", .Withdraw, 151, 150⟩, Call.getLogs ⟨"0xS4", .Deposit, 151, 150⟩,
          Call.getBalance "0xS4"]⟩ :=
  getStreamEvents_inverted_range (chainProvider 150 sampleChain []) streamQuiet 151 150 ()
    [] [] 1500000000000000000 ⟨0, by decide⟩ ⟨0, by decide⟩ (by decide)
    (chainProvider_inRange _ _ _) rfl rfl rfl
    (fun h => absurd h (by decide))

/-- C3 (as stated) fails: over the inverted range from 151 to 150 two log
queries are made, and for a stream with nothing cached the snapshot's cap and
frequency are the freshly read ones, not the stream's cached (absent) ones. -/
theorem getStreamEvents_inverted_range_counterexample :
    150 < 151 ∧
    ((getStreamEvents (chainProvider 150 sampleChain []) streamNew 151 150 ()).trace.filter
      Call.isGetLogs).length = 2 ∧
    (getStreamEvents (chainProvider 150 sampleChain []) streamNew 151 150 ()).result =
      .ok ⟨"0xS3", none, some "0.5", some 2592000, 150, "1.5", []⟩ ∧
    streamNew.cap = none ∧ streamNew.frequency = none := by
  refine ⟨by decide, by decide, rfl, rfl, rfl⟩

/-- C9: when `getStreamEvents` resolves, the snapshot's events are the decoded
withdraw events, in the order of the withdraw logs, followed by the decoded
deposit events, in the order of the deposit logs, whatever the block numbers:
the event types are all "stream.withdraw" then all "stream.deposit", the
source blocks follow the two log lists, and the length is the sum of the
two numbers of logs. -/
theorem getStreamEvents_events_order {σ : Type} (provider : Provider) (stream : Stream)
    (fromBlock toBlock : Nat) (s : σ) (wl dl : List Log) (snap : Snapshot)
    (hw : provider.getLogs ⟨stream.streamAddress, .Withdraw, fromBlock, toBlock⟩ = .ok wl)
    (hd : provider.getLogs ⟨stream.streamAddress, .Deposit, fromBlock, toBlock⟩ = .ok dl)
    (h : (getStreamEvents provider stream fromBlock toBlock s).result = .ok snap) :
    (∃ wes des, snap.events = wes ++ des ∧
      List.Forall₂ (Decoded provider (withdrawEvent stream.streamAddress)) wl wes ∧
      List.Forall₂ (Decoded provider (depositEvent stream)) dl des) ∧
    snap.events.map (fun e => e.type) =
      List.replicate wl.length "stream.withdraw" ++ List.replicate dl.length "stream.deposit" ∧
    snap.events.map (fun e => e.payload.block) =
      wl.map (fun l => l.blockNumber) ++ dl.map (fun l => l.blockNumber) ∧
    snap.events.length = wl.length + dl.length := by
  have h0 := outcome_eta (getStreamEvents provider stream fromBlock toBlock s)
  rw [h] at h0
  obtain ⟨cap, frequency, capTrace, wl2, dl2, wes, lc, lcTrace, des, bal, -, hw2, hd2, fw, -, fd,
    -, hsnap, -, -⟩ := getStreamEvents_ok_inv _ _ _ _ _ _ _ _ h0
  rw [hw] at hw2
  rw [hd] at hd2
  injection hw2 with hw2
  injection hd2 with hd2
  subst hw2 hd2 hsnap
  have tw := forall₂_decoded_type "stream.withdraw" (fun _ _ _ => rfl) fw
  have td := forall₂_decoded_type "stream.deposit" (fun _ _ _ => rfl) fd
  refine ⟨⟨wes, des, rfl, fw, fd⟩, ?_, ?_, ?_⟩
  · simp only [List.map_append]
    rw [fw.length_eq, fd.length_eq]
    congr 1
    · exact List.eq_replicate_iff.mpr ⟨by simp, by
        intro b hb
        obtain ⟨e, he, rfl⟩ := List.mem_map.mp hb
        exact tw e he⟩
    · exact List.eq_replicate_iff.mpr ⟨by simp, by
        intro b hb
        obtain ⟨e, he, rfl⟩ := List.mem_map.mp hb
        exact td e he⟩
  · simp only [List.map_append]
    rw [forall₂_decoded_block (fun _ _ _ => rfl) fw, forall₂_decoded_block (fun _ _ _ => rfl) fd]
  · simp only [List.length_append, fw.length_eq, fd.length_eq]

/-- Witness of C9: the withdraw of block 120 comes before the deposits of
blocks 110 and 130. -/
theorem getStreamEvents_events_order_witness :
    (getStreamEvents (chainProvider 150 sampleChain []) streamOne 101 150 ()).result =
      .ok ⟨"0xS1", some 77, some "0.5", some 2592000, 150, "1.5",
        [withdrawEvent "0xS1" ⟨120, "0xt2", "payout"⟩ ⟨"0xA", 1000000000000000000, "payout"⟩
            ⟨1440⟩,
          depositEvent streamOne ⟨110, "0xt1", "grant"⟩ ⟨"0xA", 1000000000000000000, "grant"⟩
            ⟨1320⟩,
          depositEvent streamOne ⟨130, "0xt4", "topup"⟩ ⟨"0xA", 1000000000000000000, "topup"⟩
            ⟨1560⟩]⟩ ∧
    [withdrawEvent "0xS1" ⟨120, "0xt2", "payout"⟩ ⟨"0xA", 1000000000000000000, "payout"⟩ ⟨1440⟩,
      depositEvent streamOne ⟨110, "0xt1", "grant"⟩ ⟨"0xA", 1000000000000000000, "grant"⟩ ⟨1320⟩,
      depositEvent streamOne ⟨130, "0xt4", "topup"⟩ ⟨"0xA", 1000000000000000000, "topup"⟩
        ⟨1560⟩].map (fun e => e.payload.block) = [120] ++ [110, 130] :=
  ⟨rfl, (getStreamEvents_events_order (chainProvider 150 sampleChain []) streamOne 101 150 ()
    [⟨120, "0xt2", "payout"⟩] [⟨110, "0xt1", "grant"⟩, ⟨130, "0xt4", "topup"⟩] _ rfl rfl
    rfl).2.2.1⟩

/-- C6 (amended): when `getStreamEvents` resolves, the withdraw counter `last` is read
exactly when the snapshot holds at least one withdraw event; if it is read the
snapshot's `lastContract` is the value read, converted to a JavaScript number
as the code does, and if it is not, no counter read is made at all and
`lastContract` is the stream's cached one. -/
theorem getStreamEvents_lastContract {σ : Type} (provider : Provider) (stream : Stream)
    (fromBlock toBlock : Nat) (s : σ) (snap : Snapshot)
    (h : (getStreamEvents provider stream fromBlock toBlock s).result = .ok snap) :
    (Call.contractLast stream.streamAddress ∈
        (getStreamEvents provider stream fromBlock toBlock s).trace ↔
      ∃ e ∈ snap.events, e.type = "stream.withdraw") ∧
    ((∃ e ∈ snap.events, e.type = "stream.withdraw") →
      ∃ v, provider.contractLast stream.streamAddress = .ok v ∧
        snap.lastContract = some (unitsToNumber v)) ∧
    ((¬ ∃ e ∈ snap.events, e.type = "stream.withdraw") →
      snap.lastContract = stream.lastContract ∧
      ∀ a, Call.contractLast a ∉ (getStreamEvents provider stream fromBlock toBlock s).trace) := by
  have h0 := outcome_eta (getStreamEvents provider stream fromBlock toBlock s)
  rw [h] at h0
  obtain ⟨cap, frequency, capTrace, wl, dl, wes, lc, lcTrace, des, bal, hcap, hw, hd, fw, hlc, fd,
    -, hsnap, -, htr⟩ := getStreamEvents_ok_inv _ _ _ _ _ _ _ _ h0
  have tw := forall₂_decoded_type "stream.withdraw" (fun _ _ _ => rfl) fw
  have td := forall₂_decoded_type "stream.deposit" (fun _ _ _ => rfl) fd
  have hev : (∃ e ∈ snap.events, e.type = "stream.withdraw") ↔ wes ≠ [] := by
    subst hsnap
    constructor
    · rintro ⟨e, he, hty⟩ hnil
      subst hnil
      have := td e (by simpa using he)
      rw [this] at hty
      exact absurd hty (by decide)
    · intro hne
      obtain ⟨e, he⟩ := List.exists_mem_of_ne_nil _ hne
      exact ⟨e, List.mem_append_left _ he, tw e he⟩
  have hcapT : ∀ a, Call.contractLast a ∉ capTrace := by
    intro a
    rcases hcap with ⟨-, c, fq, -, -, -, -, rfl⟩ | ⟨-, -, -, rfl⟩ <;> simp
  have hmem : ∀ a, Call.contractLast a ∈
      (getStreamEvents provider stream fromBlock toBlock s).trace ↔
        Call.contractLast a ∈ lcTrace := by
    intro a
    rw [htr]
    have := hcapT a
    simp only [List.mem_append, List.mem_cons, List.mem_map, List.mem_singleton, this,
      false_or, reduceCtorEq, and_false, exists_false, List.not_mem_nil, or_false]
  rcases hlc with ⟨hne, v, hv, rfl, rfl⟩ | ⟨hnil, rfl, rfl⟩
  · have hne2 : wes ≠ [] := by
      intro h2; subst h2; simp at hne
    refine ⟨?_, ?_, ?_⟩
    · rw [hmem, hev]; simp [hne2]
    · intro _; exact ⟨v, hv, by rw [hsnap]⟩
    · intro h2; exact absurd (hev.mpr hne2) h2
  · have hnil2 : wes = [] := by
      cases wes with
      | nil => rfl
      | cons a as => simp at hnil
    refine ⟨?_, ?_, ?_⟩
    · rw [hmem, hev]; simp [hnil2]
    · intro h2; exact absurd hnil2 (hev.mp h2)
    · intro _
      refine ⟨by rw [hsnap], ?_⟩
      intro a; rw [hmem]; simp

/-- Witness of C6 (amended): with a withdraw at block 120 the counter is read and the
snapshot holds the value read as a JavaScript number (2 ^ 53 + 1 is stored as
2 ^ 53); a quiet stream keeps its cached counter 5 and no counter read is
made. -/
theorem getStreamEvents_lastContract_witness :
    (getStreamEvents bigCounterProvider streamOne 101 150 ()).result =
      .ok ⟨"0xS1", some 9007199254740992, some "0.5", some 2592000, 150, "1.5",
        [withdrawEvent "0xS1" ⟨120, "0xt2", "payout"⟩ ⟨"0xA", 1000000000000000000, "payout"⟩
            ⟨1440⟩,
          depositEvent streamOne ⟨110, "0xt1", "grant"⟩ ⟨"0xA", 1000000000000000000, "grant"⟩
            ⟨1320⟩,
          depositEvent streamOne ⟨130, "0xt4", "topup"⟩ ⟨"0xA", 1000000000000000000, "topup"⟩
            ⟨1560⟩]⟩ ∧
    (∃ v, bigCounterProvider.contractLast "0xS1" = .ok v ∧
      some 9007199254740992 = some (unitsToNumber v)) ∧
    Call.contractLast "0xS1" ∈
      (getStreamEvents bigCounterProvider streamOne 101 150 ()).trace ∧
    (getStreamEvents (chainProvider 150 sampleChain []) streamQuiet 151 150 ()).result =
      .ok ⟨"0xS4", some 5, some "0.5", some 2592000, 150, "1.5", []⟩ ∧
    (Call.contractLast "0xS4" ∈
        (getStreamEvents (chainProvider 150 sampleChain []) streamQuiet 151 150 ()).trace ↔
      ∃ e ∈ ([] : List Event), e.type = "stream.withdraw") :=
  ⟨rfl,
    (getStreamEvents_lastContract bigCounterProvider streamOne 101 150 () _ rfl).2.1
      ⟨_, List.mem_cons_self _ _, rfl⟩,
    (getStreamEvents_lastContract bigCounterProvider streamOne 101 150 () _ rfl).1.mpr
      ⟨_, List.mem_cons_self _ _, rfl⟩,
    rfl,
    (getStreamEvents_lastContract (chainProvider 150 sampleChain []) streamQuiet 151 150 ()
      ⟨"0xS4", some 5, some "0.5", some 2592000, 150, "1.5", []⟩ rfl).1⟩

/-- C6 (as stated) fails on the value: with a withdraw in the range and the
contract's counter at 2 ^ 53 + 1, the snapshot's `lastContract` is not the
value read but 2 ^ 53, the JavaScript number the code converts it to. -/
theorem getStreamEvents_lastContract_counterexample :
    (bigCounterProvider.contractLast "0xS1").map (fun v => v.val) = .ok 9007199254740993 ∧
    (∃ snap, (getStreamEvents bigCounterProvider streamOne 101 150 ()).result = .ok snap ∧
      (∃ e ∈ snap.events, e.type = "stream.withdraw") ∧
      snap.lastContract = some 9007199254740992 ∧
      snap.lastContract ≠ some 9007199254740993) := by
  refine ⟨rfl, _, rfl, ⟨_, List.mem_cons_self _ _, rfl⟩, rfl, by decide⟩

/-! ## Claims on updateStreamsForBuilders -/

/-- C2: if fetching the current block height fails, `updateStreamsForBuilders`
fails with that rejection, the only call made is the height request (so no
`updateStreamData` and no `setConfigData` call), and the database state, the
watermark and every stream row included, is unchanged. -/
theorem updateStreamsForBuilders_height_failure {σ : Type} (provider : Provider) (db : Db σ)
    (max : Option Nat) (s : σ) (e : Err) (hb : provider.getBlockNumber = .error e) :
    (updateStreamsForBuilders provider db max s).result = .error e ∧
    (updateStreamsForBuilders provider db max s).db = s ∧
    (updateStreamsForBuilders provider db max s).trace = [Call.getBlockNumber] ∧
    (∀ stream snap, Call.updateStreamData stream snap ∉
      (updateStreamsForBuilders provider db max s).trace) ∧
    (∀ key value, Call.setConfigData key value ∉
      (updateStreamsForBuilders provider db max s).trace) := by
  rw [run_of_height_error provider db max s e hb]
  refine ⟨rfl, rfl, rfl, ?_, ?_⟩
  · intro stream snap hc
    rw [List.mem_singleton] at hc
    cases hc
  · intro key value hc
    rw [List.mem_singleton] at hc
    cases hc

/-- Witness of C2: with an unreachable node the store keeps its rows and its
watermark 100. -/
theorem updateStreamsForBuilders_height_failure_witness :
    unreachableProvider.getBlockNumber = .error (.rejected "RpcUnavailable") ∧
    (updateStreamsForBuilders unreachableProvider memDb (some 5)
      ⟨[streamOne, streamNew], some 100⟩).db = ⟨[streamOne, streamNew], some 100⟩ :=
  ⟨rfl, (updateStreamsForBuilders_height_failure unreachableProvider memDb (some 5)
    ⟨[streamOne, streamNew], some 100⟩ (.rejected "RpcUnavailable") rfl).2.1⟩

/-- C10 (amended): the limit passed to `findUpdatableStreams` is the supplied
maximum when it is a non-zero number, and 100 when max is omitted, null or 0;
no other stream query is made. -/
theorem updateStreamsForBuilders_limit {σ : Type} (provider : Provider) (db : Db σ)
    (max : Option Nat) (s : σ) (H : Nat) (hb : provider.getBlockNumber = .ok H) :
    (max = none ∨ max = some 0 →
      ∀ limit, Call.findUpdatableStreams limit ∈
        (updateStreamsForBuilders provider db max s).trace ↔ limit = 100) ∧
    (∀ n, max = some n → n ≠ 0 →
      ∀ limit, Call.findUpdatableStreams limit ∈
        (updateStreamsForBuilders provider db max s).trace ↔ limit = n) := by
  have key : ∀ limit, Call.findUpdatableStreams limit ∈
      (updateStreamsForBuilders provider db max s).trace ↔ limit = jsOr (jsNumber max) 100 := by
    intro limit
    constructor
    · intro hc
      have := traceIn_updateStreamsForBuilders provider db max
        (fun c => ∀ l, c = Call.findUpdatableStreams l → l = jsOr (jsNumber max) 100)
        (by intro l hl; cases hl) (by intro l hl; injection hl with hl; exact hl.symm)
        (by intro c hr l hl; subst hl; cases hr) (by intro m a l hl; cases hl)
        (by intro m a l hl; cases hl) (by intro a b l hl; cases hl)
        (by intro a b l hl; cases hl)
      exact this s _ hc limit rfl
    · rintro rfl
      obtain ⟨rest, hrest⟩ := run_trace_prefix provider db max s H hb
      rw [hrest]
      exact List.mem_cons_of_mem _ (List.mem_cons_self _ _)
  constructor
  · rintro (rfl | rfl) limit
    · rw [key]; rfl
    · rw [key]; rfl
  · rintro n rfl hn limit
    rw [key]
    have : jsOr (jsNumber (some n)) 100 = n := by
      unfold jsOr jsNumber
      simp [hn]
    rw [this]

/-- Witness of C10 (amended): with max 5 the one stream query asks for 5. -/
theorem updateStreamsForBuilders_limit_witness :
    (chainProvider 150 sampleChain []).getBlockNumber = .ok 150 ∧
    ∀ limit, Call.findUpdatableStreams limit ∈
      (updateStreamsForBuilders (chainProvider 150 sampleChain []) memDb (some 5)
        ⟨[streamOne], none⟩).trace ↔ limit = 5 :=
  ⟨rfl, (updateStreamsForBuilders_limit (chainProvider 150 sampleChain []) memDb (some 5)
    ⟨[streamOne], none⟩ 150 rfl).2 5 rfl (by decide)⟩

/-- C10 (as stated) fails at max 0: the limit passed is 100, not 0. -/
theorem updateStreamsForBuilders_limit_counterexample :
    (updateStreamsForBuilders (chainProvider 150 sampleChain []) memDb (some 0)
      ⟨[streamOne], none⟩).trace.take 2 =
        [Call.getBlockNumber, Call.findUpdatableStreams 100] ∧
    Call.findUpdatableStreams 0 ∉
      (updateStreamsForBuilders (chainProvider 150 sampleChain []) memDb (some 0)
        ⟨[streamOne], none⟩).trace := by
  refine ⟨by decide, by decide⟩

/-- C1 (amended): if `getStreamEvents` fails for at least one stream of the
batch, `updateStreamsForBuilders` aborts: it fails with a wrapped rejection,
makes no `updateStreamData` call for any stream, makes no `setConfigData` call,
and leaves the database as the stream query left it. -/
theorem updateStreamsForBuilders_sync_failure {σ : Type} (provider : Provider) (db : Db σ)
    (max : Option Nat) (s s1 : σ) (H : Nat) (streams : List Stream) (stream : Stream) (e : Err)
    (hb : provider.getBlockNumber = .ok H)
    (hf : db.findUpdatableStreams (jsOr (jsNumber max) 100) s = (.ok streams, s1))
    (hmem : stream ∈ streams)
    (hfail : (getStreamEvents provider stream (stream.lastIndexedBlock.getD 0 + 1) H s1).result =
      .error e) :
    (∃ e2, (updateStreamsForBuilders provider db max s).result = .error (.wrapped e2)) ∧
    (updateStreamsForBuilders provider db max s).db = s1 ∧
    (∀ st snap, Call.updateStreamData st snap ∉
      (updateStreamsForBuilders provider db max s).trace) ∧
    (∀ key value, Call.setConfigData key value ∉
      (updateStreamsForBuilders provider db max s).trace) := by
  obtain ⟨e2, he2⟩ := syncAll_error_of_mem provider H streams s1 stream e hmem hfail
  have hbody := batchBody_of_sync_error provider db H streams s1 e2 he2
  have hrun := run_of_find_ok _ _ _ _ _ _ _ hb hf
  rw [tryCatch_of_error hbody, handler_apply] at hrun
  rw [hrun]
  have hread := (@readOnly_syncAll σ provider H streams s1 s1).2.2.2
  refine ⟨⟨e2, rfl⟩, rfl, ?_, ?_⟩
  · intro st snap hc
    simp only [List.mem_append, List.mem_cons, List.mem_singleton, reduceCtorEq, false_or,
      List.not_mem_nil, or_false] at hc
    exact absurd (hread _ hc) (by simp [Call.isRead])
  · intro key value hc
    simp only [List.mem_append, List.mem_cons, List.mem_singleton, reduceCtorEq, false_or,
      List.not_mem_nil, or_false] at hc
    exact absurd (hread _ hc) (by simp [Call.isRead])

/-- Witness of C1 (amended): a batch of three streams, the node rejecting the
log queries of the second one. -/
theorem updateStreamsForBuilders_sync_failure_witness :
    (updateStreamsForBuilders (chainProvider 150 sampleChain ["0xS6"]) memDb none
      ⟨[streamOne, streamDown, streamTwo], some 100⟩).db =
        ⟨[streamOne, streamDown, streamTwo], some 100⟩ :=
  (updateStreamsForBuilders_sync_failure (chainProvider 150 sampleChain ["0xS6"]) memDb none
    ⟨[streamOne, streamDown, streamTwo], some 100⟩ ⟨[streamOne, streamDown, streamTwo], some 100⟩
    150 [streamOne, streamDown, streamTwo] streamDown (.rejected "RpcUnavailable") rfl rfl
    (by decide) rfl).2.1

/-- C1 (as stated) fails: in a batch of three streams where the second sync is
rejected and the two others each have events, the run does not return 2 but
fails, writes no snapshot, makes no `setConfigData` call and leaves the
watermark at 100. -/
theorem updateStreamsForBuilders_sync_failure_counterexample :
    (∃ a, (getStreamEvents (chainProvider 150 sampleChain ["0xS6"]) streamOne 101 150
      (⟨[streamOne, streamDown, streamTwo], some 100⟩ : Store)).result = .ok a ∧
        a.events.length = 3) ∧
    (∃ a, (getStreamEvents (chainProvider 150 sampleChain ["0xS6"]) streamTwo 101 150
      (⟨[streamOne, streamDown, streamTwo], some 100⟩ : Store)).result = .ok a ∧
        a.events.length = 1) ∧
    (getStreamEvents (chainProvider 150 sampleChain ["0xS6"]) streamDown 101 150
      (⟨[streamOne, streamDown, streamTwo], some 100⟩ : Store)).result =
        .error (.rejected "RpcUnavailable") ∧
    (updateStreamsForBuilders (chainProvider 150 sampleChain ["0xS6"]) memDb none
      ⟨[streamOne, streamDown, streamTwo], some 100⟩).result =
        .error (.wrapped (.rejected "RpcUnavailable")) ∧
    ((updateStreamsForBuilders (chainProvider 150 sampleChain ["0xS6"]) memDb none
      ⟨[streamOne, streamDown, streamTwo], some 100⟩).trace.filter
        Call.isUpdateStreamData).length = 0 ∧
    Call.setConfigData "streams" 150 ∉
      (updateStreamsForBuilders (chainProvider 150 sampleChain ["0xS6"]) memDb none
        ⟨[streamOne, streamDown, streamTwo], some 100⟩).trace ∧
    (updateStreamsForBuilders (chainProvider 150 sampleChain ["0xS6"]) memDb none
      ⟨[streamOne, streamDown, streamTwo], some 100⟩).db.watermark = some 100 := by
  refine ⟨⟨_, rfl, rfl⟩, ⟨_, rfl, rfl⟩, rfl, rfl, by decide, by decide, rfl⟩

/-- C5 (amended): in a run whose height request, stream query and every sync
of the batch succeed, a stream of the batch whose `lastIndexedBlock` is null
and whose sync resolved (with zero events, or with some) has its snapshot
handed to `updateStreamData` once per occurrence of the stream in the batch
(exactly once when it is listed once); and whenever the run returns a total,
the total is the number of `updateStreamData` calls of the run, so that write
is counted. -/
theorem updateStreamsForBuilders_first_sync {σ : Type} (provider : Provider) (db : Db σ)
    (max : Option Nat) (s s1 : σ) (H : Nat) (streams : List Stream) (stream : Stream)
    (snap : Snapshot)
    (hb : provider.getBlockNumber = .ok H)
    (hf : db.findUpdatableStreams (jsOr (jsNumber max) 100) s = (.ok streams, s1))
    (hall : ∀ st ∈ streams, ∃ sn,
      (getStreamEvents provider st (st.lastIndexedBlock.getD 0 + 1) H s1).result = .ok sn)
    (hnull : stream.lastIndexedBlock = none)
    (hsync : (getStreamEvents provider stream 1 H s1).result = .ok snap) :
    (updateStreamsForBuilders provider db max s).trace.count
        (Call.updateStreamData stream snap) = streams.count stream ∧
    ∀ n, (updateStreamsForBuilders provider db max s).result = .ok n →
      n = ((updateStreamsForBuilders provider db max s).trace.filter
        Call.isUpdateStreamData).length := by
  obtain ⟨rs, t1, hsyncAll⟩ := syncAll_ok_of_forall provider H streams s1 hall
  obtain ⟨tail, htr, htail, hn⟩ := run_of_sync_ok provider db max s s1 H streams rs t1 hb hf hsyncAll
  have hrel := (syncAll_ok_inv _ _ _ _ _ _ _ hsyncAll).2
  have hread := (@readOnly_syncAll σ provider H streams s1 s1).2.2.2
  rw [hsyncAll] at hread
  simp only at hread
  have hsync2 : (getStreamEvents provider stream (stream.lastIndexedBlock.getD 0 + 1) H
      s1).result = .ok snap := by
    rw [hnull]; exact hsync
  have hcount := count_persistTraces provider H s1 stream snap hsync2
    (Or.inr (by rw [hnull]; rfl)) hrel
  have ht1 : t1.count (Call.updateStreamData stream snap) = 0 := by
    rw [List.count_eq_zero]
    intro hc
    exact absurd (hread _ hc) (by simp [Call.isRead])
  have ht1f : t1.filter Call.isUpdateStreamData = [] := by
    rw [List.filter_eq_nil_iff]
    intro c hc hu
    have := hread c hc
    cases c <;> simp [Call.isRead, Call.isUpdateStreamData] at this hu
  have htailc : tail.count (Call.updateStreamData stream snap) = 0 := by
    rw [List.count_eq_zero]
    intro hc
    have := htail _ hc
    simp [Call.isUpdateStreamData] at this
  have htailf : tail.filter Call.isUpdateStreamData = [] := by
    rw [List.filter_eq_nil_iff]
    intro c hc hu
    rw [htail c hc] at hu
    cases hu
  rw [htr]
  constructor
  · simp only [List.count_append, hcount, ht1, htailc]
    simp [List.count_cons]
  · intro n hres
    rw [hn n hres]
    simp only [List.filter_append, ht1f, htailf, List.length_append]
    simp [List.filter_cons, Call.isUpdateStreamData]

/-- Witness of C5 (amended): a never-synced stream without events is written
once and the run returns 1. -/
theorem updateStreamsForBuilders_first_sync_witness :
    streamNew.lastIndexedBlock = none ∧
    (updateStreamsForBuilders (chainProvider 150 sampleChain []) memDb none
      ⟨[streamNew], none⟩).result = .ok 1 ∧
    (updateStreamsForBuilders (chainProvider 150 sampleChain []) memDb none
      ⟨[streamNew], none⟩).trace.count
        (Call.updateStreamData streamNew
          ⟨"0xS3", none, some "0.5", some 2592000, 150, "1.5", []⟩) = 1 ∧
    1 = ((updateStreamsForBuilders (chainProvider 150 sampleChain []) memDb none
      ⟨[streamNew], none⟩).trace.filter Call.isUpdateStreamData).length :=
  ⟨rfl, rfl,
    (updateStreamsForBuilders_first_sync (chainProvider 150 sampleChain []) memDb none
      ⟨[streamNew], none⟩ ⟨[streamNew], none⟩ 150 [streamNew] streamNew
      ⟨"0xS3", none, some "0.5", some 2592000, 150, "1.5", []⟩ rfl rfl
      (by
        intro st hst
        rw [List.mem_singleton] at hst
        subst hst
        exact ⟨_, rfl⟩)
      rfl rfl).1,
    (updateStreamsForBuilders_first_sync (chainProvider 150 sampleChain []) memDb none
      ⟨[streamNew], none⟩ ⟨[streamNew], none⟩ 150 [streamNew] streamNew
      ⟨"0xS3", none, some "0.5", some 2592000, 150, "1.5", []⟩ rfl rfl
      (by
        intro st hst
        rw [List.mem_singleton] at hst
        subst hst
        exact ⟨_, rfl⟩)
      rfl rfl).2 1 rfl⟩

/-- C5 (as stated) fails: in the batch of a never-synced stream and a stream
whose log queries are rejected, the never-synced stream's sync resolves with
zero events, yet `updateStreamData` is not called for it (nor for any stream)
and the run returns no total but fails. -/
theorem updateStreamsForBuilders_first_sync_counterexample :
    streamNew.lastIndexedBlock = none ∧
    (getStreamEvents (chainProvider 150 sampleChain ["0xS6"]) streamNew 1 150
      (⟨[streamNew, streamDown], none⟩ : Store)).result =
        .ok ⟨"0xS3", none, some "0.5", some 2592000, 150, "1.5", []⟩ ∧
    (updateStreamsForBuilders (chainProvider 150 sampleChain ["0xS6"]) memDb none
      ⟨[streamNew, streamDown], none⟩).trace.count
        (Call.updateStreamData streamNew
          ⟨"0xS3", none, some "0.5", some 2592000, 150, "1.5", []⟩) = 0 ∧
    ((updateStreamsForBuilders (chainProvider 150 sampleChain ["0xS6"]) memDb none
      ⟨[streamNew, streamDown], none⟩).trace.filter Call.isUpdateStreamData).length = 0 ∧
    (updateStreamsForBuilders (chainProvider 150 sampleChain ["0xS6"]) memDb none
      ⟨[streamNew, streamDown], none⟩).result =
        .error (.wrapped (.rejected "RpcUnavailable")) := by
  refine ⟨rfl, rfl, by decide, by decide, rfl⟩

/-- C8 (amended): in a successful run against a node that answers log queries
with logs of the queried range only, every snapshot handed to `updateStreamData` carries
as last block the current height of the run, and that block is at least the
stream's `lastIndexedBlock` before the run; in particular nothing is written
for a stream whose `lastIndexedBlock` is above the reported height. -/
theorem updateStreamsForBuilders_lastBlock_monotone {σ : Type} (provider : Provider)
    (db : Db σ) (max : Option Nat) (s : σ) (n : Nat) (hr : provider.InRange)
    (hrun : (updateStreamsForBuilders provider db max s).result = .ok n) :
    ∀ stream snap, Call.updateStreamData stream snap ∈
        (updateStreamsForBuilders provider db max s).trace →
      provider.getBlockNumber = .ok snap.lastBlock ∧
      ∀ L, stream.lastIndexedBlock = some L → L ≤ snap.lastBlock := by
  intro stream snap hc
  obtain ⟨H, streams, s1, rs, t1, s2, hb, hf, hsyncAll, -, hn, htr⟩ :=
    run_ok_inv provider db max s n hrun
  have hall := (syncAll_ok_inv _ _ _ _ _ _ _ hsyncAll).2
  have hread := (@readOnly_syncAll σ provider H streams s1 s1).2.2.2
  rw [hsyncAll] at hread
  simp only at hread
  rw [htr] at hc
  simp only [List.mem_append, List.mem_cons, List.mem_singleton, reduceCtorEq, false_or,
    List.not_mem_nil, or_false] at hc
  rcases hc with hc | hc
  · exact absurd (hread _ hc) (by simp [Call.isRead])
  · obtain ⟨r, hrmem, hc⟩ := mem_persistTraces.mp hc
    obtain ⟨e1, e2, hq⟩ := mem_persistTrace_update hc
    obtain ⟨a, -, ha1, ha2⟩ := forall₂_mem_right hall hrmem
    rw [← e1] at ha1
    rw [← e2, ← ha1] at ha2
    rw [← e1, ← e2] at hq
    have hlast := getStreamEvents_lastBlock _ _ _ _ _ _ ha2
    refine ⟨by rw [hlast]; exact hb, ?_⟩
    intro L hL
    rw [hlast]
    by_contra hlt
    have hlt2 : H < stream.lastIndexedBlock.getD 0 + 1 := by
      rw [hL]; simp only [Option.getD_some]; omega
    have hnil := getStreamEvents_events_nil _ _ _ _ _ _ hr hlt2 ha2
    rcases hq with hq | hq
    · rw [hnil] at hq; exact hq rfl
    · rw [hL] at hq
      have : L = 0 := by
        unfold truthyNum at hq
        simpa using hq
      omega

/-- Witness of C8 (amended): a stream indexed up to block 100 is written with
last block 150. -/
theorem updateStreamsForBuilders_lastBlock_monotone_witness :
    (chainProvider 150 sampleChain []).InRange ∧
    ∀ L, streamOne.lastIndexedBlock = some L → L ≤ 150 :=
  ⟨chainProvider_inRange _ _ _,
    ((updateStreamsForBuilders_lastBlock_monotone (chainProvider 150 sampleChain []) memDb none
      ⟨[streamOne], none⟩ 1 (chainProvider_inRange _ _ _) rfl) streamOne
      ⟨"0xS1", some 77, some "0.5", some 2592000, 150, "1.5",
        [withdrawEvent "0xS1" ⟨120, "0xt2", "payout"⟩ ⟨"0xA", 1000000000000000000, "payout"⟩
            ⟨1440⟩,
          depositEvent streamOne ⟨110, "0xt1", "grant"⟩ ⟨"0xA", 1000000000000000000, "grant"⟩
            ⟨1320⟩,
          depositEvent streamOne ⟨130, "0xt4", "topup"⟩ ⟨"0xA", 1000000000000000000, "topup"⟩
            ⟨1560⟩]⟩ (by decide)).2⟩

/-- C8 (as stated) fails: the code sends the inverted range to the node
unguarded.  With a node that reports height 100 and serves the inverted range
from 151 to 100 as open-ended, a stream indexed up to block 150 is handed to
`updateStreamData` with last block 100 in a successful run, and its stored
`lastIndexedBlock` goes down from 150 to 100. -/
theorem updateStreamsForBuilders_lastBlock_monotone_counterexample :
    streamQuiet.lastIndexedBlock = some 150 ∧
    staleProvider.getBlockNumber = .ok 100 ∧
    (updateStreamsForBuilders staleProvider memDb none ⟨[streamQuiet], some 150⟩).result =
      .ok 1 ∧
    Call.updateStreamData streamQuiet
      ⟨"0xS4", some 5, some "0.5", some 2592000, 100, "1.5",
        [depositEvent streamQuiet ⟨155, "0xt9", "late"⟩ ⟨"0xA", 1000000000000000000, "late"⟩
          ⟨1860⟩]⟩ ∈
      (updateStreamsForBuilders staleProvider memDb none ⟨[streamQuiet], some 150⟩).trace ∧
    (updateStreamsForBuilders staleProvider memDb none
      ⟨[streamQuiet], some 150⟩).db.rows.map (fun row => row.lastIndexedBlock) = [some 100] := by
  refine ⟨rfl, rfl, rfl, by decide, by decide⟩

/-- Support for C4: in a run that returns, a stream whose `lastIndexedBlock`
is a non-zero block and whose sync resolved with zero events is not handed to
`updateStreamData`. -/
theorem updateStreamsForBuilders_quiet_stream_skipped {σ : Type} (provider : Provider)
    (db : Db σ) (max : Option Nat) (s s1 : σ) (H : Nat) (streams : List Stream)
    (stream : Stream) (snap : Snapshot) (n L : Nat)
    (hb : provider.getBlockNumber = .ok H)
    (hf : db.findUpdatableStreams (jsOr (jsNumber max) 100) s = (.ok streams, s1))
    (hrun : (updateStreamsForBuilders provider db max s).result = .ok n)
    (hset : stream.lastIndexedBlock = some L) (hL : L ≠ 0)
    (hsync : (getStreamEvents provider stream (L + 1) H s1).result = .ok snap)
    (hempty : snap.events = []) :
    ∀ sn, Call.updateStreamData stream sn ∉
      (updateStreamsForBuilders provider db max s).trace := by
  intro sn hc
  obtain ⟨H2, streams2, s3, rs, t1, s2, hb2, hf2, hsyncAll, -, hn, htr⟩ :=
    run_ok_inv provider db max s n hrun
  rw [hb] at hb2
  rw [hf] at hf2
  injection hb2 with hb2
  injection hf2 with hf2 hf3
  injection hf2 with hf2
  subst hb2 hf2 hf3
  have hall := (syncAll_ok_inv _ _ _ _ _ _ _ hsyncAll).2
  have hread := (@readOnly_syncAll σ provider H streams s1 s1).2.2.2
  rw [hsyncAll] at hread
  simp only at hread
  rw [htr] at hc
  simp only [List.mem_append, List.mem_cons, List.mem_singleton, reduceCtorEq, false_or,
    List.not_mem_nil, or_false] at hc
  rcases hc with hc | hc
  · exact absurd (hread _ hc) (by simp [Call.isRead])
  · obtain ⟨r, hrmem, hc⟩ := mem_persistTraces.mp hc
    obtain ⟨e1, e2, hq⟩ := mem_persistTrace_update hc
    obtain ⟨a, -, ha1, ha2⟩ := forall₂_mem_right hall hrmem
    rw [← e1] at ha1
    rw [← ha1, hset] at ha2
    simp only [Option.getD_some] at ha2
    rw [hsync] at ha2
    injection ha2 with ha2
    rw [← e1, ← ha2, hempty, hset] at hq
    rcases hq with hq | hq
    · exact hq rfl
    · unfold truthyNum at hq
      simp at hq
      exact hL hq

/-- Witness of the support for C4: a stream indexed up to block 150 with no
later event is not written at height 150. -/
theorem updateStreamsForBuilders_quiet_stream_skipped_witness :
    ∀ sn, Call.updateStreamData streamQuiet sn ∉
      (updateStreamsForBuilders (chainProvider 150 sampleChain []) memDb none
        ⟨[streamQuiet], some 150⟩).trace :=
  updateStreamsForBuilders_quiet_stream_skipped (chainProvider 150 sampleChain []) memDb none
    ⟨[streamQuiet], some 150⟩ ⟨[streamQuiet], some 150⟩ 150 [streamQuiet] streamQuiet
    ⟨"0xS4", some 5, some "0.5", some 2592000, 150, "1.5", []⟩ 0 150 rfl rfl rfl rfl
    (by decide) rfl rfl

/-- C4 at the failing input: a stream whose `lastIndexedBlock` is set to block
0 and whose sync over blocks 1 to 150 returns zero events is handed to
`updateStreamData` all the same, is counted in the returned total, and its
stored `lastIndexedBlock` moves from 0 to 150. -/
theorem updateStreamsForBuilders_zero_block_rewritten :
    streamZero.lastIndexedBlock = some 0 ∧
    (getStreamEvents (chainProvider 150 sampleChain []) streamZero 1 150
      (⟨[streamZero], some 100⟩ : Store)).result =
        .ok ⟨"0xS5", some 5, some "0.5", some 2592000, 150, "1.5", []⟩ ∧
    (updateStreamsForBuilders (chainProvider 150 sampleChain []) memDb none
      ⟨[streamZero], some 100⟩).result = .ok 1 ∧
    (updateStreamsForBuilders (chainProvider 150 sampleChain []) memDb none
      ⟨[streamZero], some 100⟩).trace.count
        (Call.updateStreamData streamZero
          ⟨"0xS5", some 5, some "0.5", some 2592000, 150, "1.5", []⟩) = 1 ∧
    (updateStreamsForBuilders (chainProvider 150 sampleChain []) memDb none
      ⟨[streamZero], some 100⟩).db.rows.map (fun row => row.lastIndexedBlock) = [some 150] := by
  refine ⟨rfl, rfl, rfl, by decide, by decide⟩

/-- C7 at the failing input: at current height 0, with one never-synced stream
and no chain activity, the first run writes the stream (storing block 0 as its
`lastIndexedBlock`) and the second run, which also succeeds, writes it again
and returns 1 instead of 0; the watermark is set to 0 by both. -/
theorem updateStreamsForBuilders_second_run_at_height_zero :
    (updateStreamsForBuilders (chainProvider 0 [] []) memDb none ⟨[streamNew], none⟩).result =
      .ok 1 ∧
    (updateStreamsForBuilders (chainProvider 0 [] []) memDb none ⟨[streamNew], none⟩).db =
      ⟨[⟨"0xS3", "0xB3", some "0.5", some 2592000, some 0, none⟩], some 0⟩ ∧
    (updateStreamsForBuilders (chainProvider 0 [] []) memDb none
      (updateStreamsForBuilders (chainProvider 0 [] []) memDb none
        ⟨[streamNew], none⟩).db).result = .ok 1 ∧
    ((updateStreamsForBuilders (chainProvider 0 [] []) memDb none
      (updateStreamsForBuilders (chainProvider 0 [] []) memDb none
        ⟨[streamNew], none⟩).db).trace.filter Call.isUpdateStreamData).length = 1 ∧
    Call.setConfigData "streams" 0 ∈
      (updateStreamsForBuilders (chainProvider 0 [] []) memDb none
        (updateStreamsForBuilders (chainProvider 0 [] []) memDb none
          ⟨[streamNew], none⟩).db).trace := by
  refine ⟨rfl, by decide, rfl, by decide, by decide⟩

/-! ## Two consecutive runs over the modelled store -/

theorem persistTrace_eq_nil_iff (snap : Snapshot) (stream : Stream) :
    persistTrace snap stream = [] ↔ written (snap, stream) = false := by
  unfold persistTrace written
  by_cases h1 : (snap.events.length != 0) = true
  · simp [h1]
  · by_cases h2 : (!truthyNum stream.lastIndexedBlock) = true
    · rw [if_neg h1, if_pos h2]
      simp only [Bool.not_eq_true] at h1
      simp [h1, h2]
    · rw [if_neg h1, if_neg h2]
      simp only [Bool.not_eq_true] at h1 h2
      simp [h1, h2]

theorem persistTask_memDb (snap : Snapshot) (stream : Stream) (st : Store) :
    (persistTask memDb snap stream st).db =
      ⟨st.rows.map (fun row => if written (snap, stream) then storeSnapshot stream snap row
        else row), st.watermark⟩ := by
  unfold persistTask written
  by_cases h1 : (snap.events.length != 0) = true
  · rw [if_pos h1, bind_call_ok]
    rw [bind_dbCall_ok (Call.updateStreamData stream snap) (memDb.updateStreamData stream snap) _
      st ⟨st.rows.map (storeSnapshot stream snap), st.watermark⟩ () rfl]
    simp [h1, pure_apply]
  · rw [if_neg h1]
    by_cases h2 : (!truthyNum stream.lastIndexedBlock) = true
    · rw [if_pos h2, bind_call_ok]
      rw [bind_dbCall_ok (Call.updateStreamData stream snap)
        (memDb.updateStreamData stream snap) _
        st ⟨st.rows.map (storeSnapshot stream snap), st.watermark⟩ () rfl]
      simp [h2, pure_apply]
    · rw [if_neg h2]
      simp only [Bool.not_eq_true] at h1 h2
      simp [h1, h2, pure_apply]

theorem persistAll_memDb (rs : List (Snapshot × Stream)) (st : Store) :
    (promiseAll (rs.map fun r => persistTask memDb r.1 r.2) st).db =
      ⟨st.rows.map (applyWrites rs), st.watermark⟩ := by
  induction rs generalizing st with
  | nil =>
    rw [List.map_nil, promiseAll_nil]
    simp [applyWrites]
  | cons r rs ih =>
    rw [List.map_cons, promiseAll_cons]
    simp only [ih, persistTask_memDb, List.map_map]
    rfl

theorem storeSnapshot_address (stream : Stream) (snap : Snapshot) (row : Stream) :
    (storeSnapshot stream snap row).streamAddress = row.streamAddress := by
  unfold storeSnapshot
  split <;> rfl

/-- A row after the writes of a batch at height `H`: either it was written and
holds `H`, or it is untouched and no write addressed it. -/
theorem applyWrites_cases (H : Nat) (rs : List (Snapshot × Stream))
    (hH : ∀ r ∈ rs, r.1.lastBlock = H) (row : Stream) :
    (applyWrites rs row).lastIndexedBlock = some H ∨
    (applyWrites rs row = row ∧
      ∀ r ∈ rs, written r = true → r.2.streamAddress ≠ row.streamAddress) := by
  induction rs generalizing row with
  | nil => exact Or.inr ⟨rfl, by intro r hr; cases hr⟩
  | cons r rs ih =>
    have hrs : ∀ x ∈ rs, x.1.lastBlock = H := fun x hx => hH x (List.mem_cons_of_mem _ hx)
    rw [applyWrites]
    by_cases hw : written r = true
    · rw [if_pos hw]
      by_cases ha : row.streamAddress = r.2.streamAddress
      · have hrow : (storeSnapshot r.2 r.1 row).lastIndexedBlock = some H := by
          unfold storeSnapshot
          rw [if_pos ha]
          simp only
          rw [hH r (List.mem_cons_self _ _)]
        rcases ih hrs (storeSnapshot r.2 r.1 row) with h | ⟨h, -⟩
        · exact Or.inl h
        · exact Or.inl (by rw [h]; exact hrow)
      · have hrow : storeSnapshot r.2 r.1 row = row := by
          unfold storeSnapshot
          rw [if_neg ha]
        rw [hrow]
        rcases ih hrs row with h | ⟨h, h2⟩
        · exact Or.inl h
        · refine Or.inr ⟨h, ?_⟩
          intro x hx hwx
          rcases List.mem_cons.mp hx with rfl | hx
          · exact fun h3 => ha h3.symm
          · exact h2 x hx hwx
    · rw [if_neg hw]
      rcases ih hrs row with h | ⟨h, h2⟩
      · exact Or.inl h
      · refine Or.inr ⟨h, ?_⟩
        intro x hx hwx
        rcases List.mem_cons.mp hx with rfl | hx
        · exact absurd hwx hw
        · exact h2 x hx hwx

theorem forall₂_mem_left {α β : Type} {R : α → β → Prop} {l : List α} {rs : List β}
    (h : List.Forall₂ R l rs) {a : α} (ha : a ∈ l) : ∃ r ∈ rs, R a r := by
  induction h with
  | nil => cases ha
  | cons hd _ ih =>
    rcases List.mem_cons.mp ha with rfl | ha
    · exact ⟨_, List.mem_cons_self _ _, hd⟩
    · obtain ⟨r, hr, hR⟩ := ih ha
      exact ⟨r, List.mem_cons_of_mem _ hr, hR⟩

theorem persistTraces_eq_nil {rs : List (Snapshot × Stream)}
    (h : ∀ r ∈ rs, written r = false) : persistTraces rs = [] := by
  induction rs with
  | nil => rfl
  | cons r rs ih =>
    rw [persistTraces, (persistTrace_eq_nil_iff r.1 r.2).mpr (h r (List.mem_cons_self _ _)),
      ih (fun x hx => h x (List.mem_cons_of_mem _ hx))]
    rfl

/-- Support for C7: over the modelled store, at a non-zero current height and
against a node that answers log queries with logs of the queried range only,
when two consecutive runs with the same node answers both return, the second
run hands no stream to `updateStreamData`, returns 0, calls
`setConfigData` with the current height and leaves it as the watermark. -/
theorem updateStreamsForBuilders_second_run_idle (provider : Provider) (max : Option Nat)
    (st : Store) (H n1 n2 : Nat) (hr : provider.InRange)
    (hb : provider.getBlockNumber = .ok H) (hH : H ≠ 0)
    (h1 : (updateStreamsForBuilders provider memDb max st).result = .ok n1)
    (h2 : (updateStreamsForBuilders provider memDb max
      (updateStreamsForBuilders provider memDb max st).db).result = .ok n2) :
    n2 = 0 ∧
    (∀ stream snap, Call.updateStreamData stream snap ∉
      (updateStreamsForBuilders provider memDb max
        (updateStreamsForBuilders provider memDb max st).db).trace) ∧
    Call.setConfigData "streams" H ∈
      (updateStreamsForBuilders provider memDb max
        (updateStreamsForBuilders provider memDb max st).db).trace ∧
    (updateStreamsForBuilders provider memDb max
      (updateStreamsForBuilders provider memDb max st).db).db.watermark = some H := by
  obtain ⟨Ha, streams, s1, rs, t1, s2, hba, hf, hsyncAll, ⟨hs2, hcfg⟩, -, -⟩ :=
    run_ok_inv provider memDb max st n1 h1
  rw [hb] at hba
  injection hba with hba
  subst hba
  have hall := (syncAll_ok_inv _ _ _ _ _ _ _ hsyncAll).2
  have hs1 : s1 = st ∧ streams = st.rows.take (jsOr (jsNumber max) 100) := by
    have : memDb.findUpdatableStreams (jsOr (jsNumber max) 100) st =
        (.ok (st.rows.take (jsOr (jsNumber max) 100)), st) := rfl
    rw [this] at hf
    injection hf with hf1 hf2
    injection hf1 with hf1
    exact ⟨hf2.symm, hf1.symm⟩
  obtain ⟨e1, e2⟩ := hs1
  subst e1
  rw [persistAll_memDb] at hs2
  have hdb1 : (updateStreamsForBuilders provider memDb max s1).db =
      ⟨s1.rows.map (applyWrites rs), some H⟩ := by
    have : memDb.setConfigData "streams" H s2 = (.ok (), ⟨s2.rows, some H⟩) := rfl
    rw [this] at hcfg
    injection hcfg with _ hcfg
    rw [← hcfg, hs2]
  have hlastBlock : ∀ r ∈ rs, r.1.lastBlock = H := by
    intro r hrm
    obtain ⟨a, -, -, ha2⟩ := forall₂_mem_right hall hrm
    exact getStreamEvents_lastBlock _ _ _ _ _ _ ha2
  rw [hdb1] at h2 ⊢
  obtain ⟨Hb, streams2, s3, rs2, t2, s4, hbb, hf2, hsyncAll2, ⟨-, hcfg2⟩, hn2, htr2⟩ :=
    run_ok_inv provider memDb max _ n2 h2
  rw [hb] at hbb
  injection hbb with hbb
  subst hbb
  have hall2 := (syncAll_ok_inv _ _ _ _ _ _ _ hsyncAll2).2
  have hread2 := (@readOnly_syncAll Store provider H streams2 s3 s3).2.2.2
  rw [hsyncAll2] at hread2
  simp only at hread2
  have hs3 : streams2 = streams.map (applyWrites rs) := by
    have : memDb.findUpdatableStreams (jsOr (jsNumber max) 100)
        ⟨s1.rows.map (applyWrites rs), some H⟩ =
        (.ok ((s1.rows.map (applyWrites rs)).take (jsOr (jsNumber max) 100)),
          ⟨s1.rows.map (applyWrites rs), some H⟩) := rfl
    rw [this] at hf2
    injection hf2 with hf1 _
    injection hf1 with hf1
    rw [← hf1, e2, List.map_take]
  have hidle : ∀ r ∈ rs2, written r = false := by
    intro r2 hr2
    obtain ⟨row2, hrow2, hr2a, hr2b⟩ := forall₂_mem_right hall2 hr2
    rw [hs3] at hrow2
    obtain ⟨row, hrow, rfl⟩ := List.mem_map.mp hrow2
    rcases applyWrites_cases H rs hlastBlock row with hcase | ⟨hsame, hnone⟩
    · rw [hcase] at hr2b
      simp only [Option.getD_some] at hr2b
      have hnil := getStreamEvents_events_nil _ _ _ _ _ _ hr (Nat.lt_succ_self H) hr2b
      unfold written
      rw [hnil, hr2a, hcase]
      simp [truthyNum, hH]
    · rw [hsame] at hr2a hr2b
      obtain ⟨r, hrm, hra, hrb⟩ := forall₂_mem_left hall hrow
      have hres := (readOnly_getStreamEvents provider row
        (row.lastIndexedBlock.getD 0 + 1) H s3 s1).2.1
      rw [hr2b, hrb] at hres
      injection hres with hres
      have hnw : written r = false := by
        cases hq : written r with
        | false => rfl
        | true => exact absurd (by rw [hra]) (hnone r hrm hq)
      have : r2 = r := by
        rcases r2 with ⟨a2, b2⟩
        rcases r with ⟨a, b⟩
        simp only at hr2a hra hres
        rw [hr2a, hra, hres]
      rw [this]; exact hnw
  have hnil := persistTraces_eq_nil hidle
  rw [hnil] at hn2 htr2
  refine ⟨hn2, ?_, ?_, ?_⟩
  · intro stream snap hc
    rw [htr2] at hc
    simp only [List.mem_append, List.mem_cons, List.mem_singleton, reduceCtorEq, false_or,
      List.not_mem_nil, or_false] at hc
    exact absurd (hread2 _ hc) (by simp [Call.isRead])
  · rw [htr2]
    simp
  · have : memDb.setConfigData "streams" H s4 = (.ok (), ⟨s4.rows, some H⟩) := rfl
    rw [this] at hcfg2
    injection hcfg2 with _ hcfg2
    rw [← hcfg2]

/-- Witness of the support for C7: two runs at height 150 over a never-synced
stream. -/
theorem updateStreamsForBuilders_second_run_idle_witness :
    (updateStreamsForBuilders (chainProvider 150 sampleChain []) memDb none
      ⟨[streamNew, streamOne], none⟩).result = .ok 2 ∧
    (updateStreamsForBuilders (chainProvider 150 sampleChain []) memDb none
      (updateStreamsForBuilders (chainProvider 150 sampleChain []) memDb none
        ⟨[streamNew, streamOne], none⟩).db).db.watermark = some 150 :=
  ⟨rfl, (updateStreamsForBuilders_second_run_idle (chainProvider 150 sampleChain []) none
    ⟨[streamNew, streamOne], none⟩ 150 2 0 (chainProvider_inRange _ _ _) rfl (by decide) rfl
    rfl).2.2.2⟩

end Streams
